import Mathlib

/-
Verification development for the israeli-bank-ynab-transformer core
(src/transformer.ts and src/audit-logger.ts), shallowly embedded in Lean.

Modelling conventions:
- Monetary amounts on transactions are integers of currency minor units
  (cents): the data model fixes charged/original amounts to minor-unit
  precision, so a JS number amount `x` is embedded as the integer `100*x`.
  Audit-log totals, which are recomputed by parsing arbitrary decimal
  strings, are embedded as exact rationals.
- JS `Date` values are calendar dates (year, month, day).  `new Date(s)`
  is modelled on the plain `YYYY-MM-DD` grammar with four-digit years
  (1000..9999): date-time strings with offsets resolve through the host's
  local time zone and are outside the model, and the formatter does not
  zero-pad years below 1000, so such years are excluded from the grammar.
- Fields that can be `undefined` in TS are `Option`s; JS truthiness of a
  string is "present and non-empty", of a number "present and non-zero".
- `formatDate` is the one operation that can throw; functions that call it
  are embedded in `Except String`.
-/

namespace Iby

/-! ### Decimal digit strings -/

def digitVal (c : Char) : Nat := c.toNat - 48

def isDigitCh (c : Char) : Bool := 48 ≤ c.toNat && c.toNat ≤ 57

/-- Value of a list of decimal digit characters (most significant first). -/
def digitsToNat (l : List Char) : Nat :=
  l.foldl (fun a c => 10 * a + digitVal c) 0

/-- Decimal digits of a number, fuel-based so that it reduces in the kernel. -/
def natToDigsAux : Nat → Nat → List Char → List Char
  | 0, _, acc => acc
  | fuel + 1, n, acc =>
    if n < 10 then Nat.digitChar n :: acc
    else natToDigsAux fuel (n / 10) (Nat.digitChar (n % 10) :: acc)

def natDigs (n : Nat) : List Char := natToDigsAux (n + 1) n []

/-- Model of JS `String(n)` for a non-negative integer. -/
def natRepr (n : Nat) : String := ⟨natDigs n⟩

/-- Model of JS `String(i)` for an integer. -/
def intRepr (i : Int) : String :=
  if i < 0 then "-" ++ natRepr i.natAbs else natRepr i.natAbs

/-- Model of `String(n).padStart(2, "0")`. -/
def pad2 (n : Nat) : String :=
  if n < 10 then "0" ++ natRepr n else natRepr n

theorem natToDigsAux_acc (fuel : Nat) :
    ∀ (n : Nat) (acc : List Char),
      natToDigsAux fuel n acc = natToDigsAux fuel n [] ++ acc := by
  induction fuel with
  | zero => intro n acc; simp [natToDigsAux]
  | succ f ih =>
    intro n acc
    by_cases h : n < 10
    · simp [natToDigsAux, h]
    · simp only [natToDigsAux, if_neg h]
      rw [ih (n / 10) (Nat.digitChar (n % 10) :: acc),
        ih (n / 10) [Nat.digitChar (n % 10)]]
      simp

theorem natToDigsAux_fuel (f : Nat) :
    ∀ (g n : Nat) (acc : List Char), n < f → n < g →
      natToDigsAux f n acc = natToDigsAux g n acc := by
  induction f with
  | zero => intro g n acc h; omega
  | succ f ih =>
    intro g n acc hf hg
    match g, hg with
    | g + 1, _ =>
      by_cases h : n < 10
      · simp [natToDigsAux, h]
      · simp only [natToDigsAux, if_neg h]
        apply ih
        · omega
        · omega

theorem natDigs_small {n : Nat} (h : n < 10) :
    natDigs n = [Nat.digitChar n] := by
  simp [natDigs, natToDigsAux, h]

theorem natDigs_step {n d : Nat} (hn : 1 ≤ n) (hd : d < 10) :
    natDigs (10 * n + d) = natDigs n ++ [Nat.digitChar d] := by
  have h10 : ¬ 10 * n + d < 10 := by omega
  have hmod : (10 * n + d) % 10 = d := by omega
  have hdiv : (10 * n + d) / 10 = n := by omega
  conv_lhs => rw [natDigs]
  rw [show natToDigsAux (10 * n + d + 1) (10 * n + d) []
      = natToDigsAux (10 * n + d) ((10 * n + d) / 10)
        (Nat.digitChar ((10 * n + d) % 10) :: []) by
    simp only [natToDigsAux, if_neg h10]]
  rw [hmod, hdiv,
    natToDigsAux_fuel (10 * n + d) (n + 1) n _ (by omega) (by omega),
    natToDigsAux_acc]
  rfl

theorem digitsToNat_append (l : List Char) (c : Char) :
    digitsToNat (l ++ [c]) = 10 * digitsToNat l + digitVal c := by
  simp [digitsToNat, List.foldl_append]

theorem digitVal_digitChar {d : Nat} (h : d < 10) :
    digitVal (Nat.digitChar d) = d := by
  interval_cases d <;> rfl

theorem digitsToNat_natDigs (n : Nat) : digitsToNat (natDigs n) = n := by
  induction n using Nat.strong_induction_on with
  | _ n ih =>
    by_cases h : n < 10
    · rw [natDigs_small h]
      simp [digitsToNat, digitVal_digitChar h]
    · have hn : n = 10 * (n / 10) + n % 10 := by omega
      rw [hn, natDigs_step (by omega) (by omega), digitsToNat_append,
        ih (n / 10) (by omega), digitVal_digitChar (by omega)]

theorem char_toNat_inj {a b : Char} (h : a.toNat = b.toNat) : a = b :=
  Char.ext (UInt32.toNat.inj h)

theorem digitChar_digitVal {c : Char} (h : isDigitCh c = true) :
    Nat.digitChar (digitVal c) = c := by
  simp only [isDigitCh, Bool.and_eq_true, decide_eq_true_eq] at h
  have hv : c.toNat = 48 + digitVal c := by
    simp only [digitVal]; omega
  have hd : digitVal c < 10 := by simp only [digitVal]; omega
  have hn : (Nat.digitChar (digitVal c)).toNat = 48 + digitVal c := by
    interval_cases h : digitVal c <;> rfl
  exact char_toNat_inj (hn.trans hv.symm)

theorem digitsToNat_all_zero :
    ∀ (l : List Char) (a : Nat), 1 ≤ a → 1 ≤ l.foldl (fun a c => 10 * a + digitVal c) a := by
  intro l
  induction l with
  | nil => intro a h; simpa using h
  | cons c t ih =>
    intro a h
    simp only [List.foldl_cons]
    exact ih _ (by omega)

theorem digitsToNat_head_pos {c : Char} (t : List Char)
    (hc : isDigitCh c = true) (h0 : c ≠ '0') :
    1 ≤ digitsToNat (c :: t) := by
  simp only [isDigitCh, Bool.and_eq_true, decide_eq_true_eq] at hc
  have : c.toNat ≠ 48 := by
    intro h
    exact h0 (char_toNat_inj (h.trans (by rfl)))
  simp only [digitsToNat, List.foldl_cons]
  apply digitsToNat_all_zero
  simp only [digitVal]
  omega

/-- Printing is a left inverse of parsing on digit strings without a
leading zero. -/
theorem natDigs_digitsToNat :
    ∀ (l : List Char), l ≠ [] → (∀ c ∈ l, isDigitCh c = true) →
      (∀ c, l.head? = some c → c ≠ '0') →
      natDigs (digitsToNat l) = l := by
  intro l
  induction l using List.reverseRecOn with
  | nil => intro h; exact absurd rfl h
  | append_singleton M c ih =>
    intro _ hdig hhead
    match M, hhead with
    | [], hhead =>
      have hc : isDigitCh c = true := hdig c (by simp)
      have h0 : c ≠ '0' := hhead c (by simp)
      simp only [List.nil_append, digitsToNat, List.foldl_cons, List.foldl_nil]
      have hlt : 10 * 0 + digitVal c < 10 := by
        simp only [isDigitCh, Bool.and_eq_true, decide_eq_true_eq] at hc
        simp only [digitVal]; omega
      rw [natDigs_small hlt]
      simp [digitChar_digitVal hc]
    | m :: M', hhead =>
      have hM : (m :: M') ≠ [] := by simp
      have hdigM : ∀ x ∈ (m :: M'), isDigitCh x = true := by
        intro x hx; exact hdig x (List.mem_append_left [c] hx)
      have hheadM : ∀ x, (m :: M').head? = some x → x ≠ '0' := by
        intro x hx
        apply hhead
        simpa using hx
      have hc : isDigitCh c = true := hdig c (List.mem_append_right _ (by simp))
      have hpos : 1 ≤ digitsToNat (m :: M') := by
        apply digitsToNat_head_pos
        · exact hdigM m (by simp)
        · apply hheadM m; rfl
      have hdlt : digitVal c < 10 := by
        simp only [isDigitCh, Bool.and_eq_true, decide_eq_true_eq] at hc
        simp only [digitVal]; omega
      rw [digitsToNat_append, natDigs_step hpos hdlt, ih hM hdigM hheadM,
        digitChar_digitVal hc]

/-! ### Calendar dates

Model of the JS `Date` values the pipeline produces: `new Date(s)` on the
plain-date grammar, the `getFullYear/getMonth/getDate` component reads, and
`setDate(getDate() + k)` day arithmetic with month/year roll-over. -/

structure CDate where
  year : Nat
  month : Nat
  day : Nat
deriving DecidableEq

def isLeap (y : Nat) : Bool :=
  (y % 4 == 0 && y % 100 != 0) || y % 400 == 0

def daysInMonth (y m : Nat) : Nat :=
  if m = 2 then (if isLeap y then 29 else 28)
  else if m = 4 ∨ m = 6 ∨ m = 9 ∨ m = 11 then 30
  else 31

def validCDate (d : CDate) : Bool :=
  1000 ≤ d.year && d.year ≤ 9999 && 1 ≤ d.month && d.month ≤ 12 &&
    1 ≤ d.day && d.day ≤ daysInMonth d.year d.month

/-- Model of `new Date(input)` restricted to the plain `YYYY-MM-DD` grammar
(see the header note); an input outside it is an invalid date (`none`). -/
def jsNewDate (s : String) : Option CDate :=
  match s.data with
  | [y1, y2, y3, y4, h1, m1, m2, h2, d1, d2] =>
    if h1 = '-' ∧ h2 = '-' ∧
        isDigitCh y1 ∧ isDigitCh y2 ∧ isDigitCh y3 ∧ isDigitCh y4 ∧
        isDigitCh m1 ∧ isDigitCh m2 ∧ isDigitCh d1 ∧ isDigitCh d2 then
      let d : CDate := ⟨digitsToNat [y1, y2, y3, y4], digitsToNat [m1, m2],
        digitsToNat [d1, d2]⟩
      if validCDate d then some d else none
    else none
  | _ => none

/-- transformer.ts `parseDate`: `null` (here `none`) for invalid dates. -/
def parseDate (input : String) : Option CDate := jsNewDate input

/-- Calendar-component rendering used by `formatDate` once the date is known
to be valid: `year-MM-DD` with zero-padded month and day. -/
def formatD (d : CDate) : String :=
  natRepr d.year ++ "-" ++ pad2 d.month ++ "-" ++ pad2 d.day

/-- transformer.ts `formatDate` on a `Date` value (`none` = JS Invalid Date):
throws "Invalid date" on an invalid value, else renders `YYYY-MM-DD`. -/
def formatDateE : Option CDate → Except String String
  | none => Except.error "Invalid date"
  | some d => Except.ok (formatD d)

/-- transformer.ts `formatDate` on a string input: `new Date(input)` then the
invalid check, then component rendering. -/
def formatDateStr (input : String) : Except String String :=
  formatDateE (jsNewDate input)

/-- Model of `date.setDate(date.getDate() + 1)`: calendar roll-over across
month and year boundaries. -/
def nextDay (d : CDate) : CDate :=
  if d.day < daysInMonth d.year d.month then ⟨d.year, d.month, d.day + 1⟩
  else if d.month < 12 then ⟨d.year, d.month + 1, 1⟩
  else ⟨d.year + 1, 1, 1⟩

/-- Calendar day-shift: the in-range arithmetic of
`date.setDate(date.getDate() + k)`.  The JS range clip is applied by
`setDateAdd` below. -/
def addDays (d : CDate) : Nat → CDate
  | 0 => d
  | k + 1 => nextDay (addDays d k)

/-- Days from the epoch 1970-01-01 to the given civil date in the proleptic
Gregorian calendar (the standard days-from-civil computation; on the
four-digit years of the parse grammar every intermediate value is
non-negative). -/
def daysFromEpoch (d : CDate) : Int :=
  let y : Int := if d.month ≤ 2 then (d.year : Int) - 1 else (d.year : Int)
  let era : Int := (if 0 ≤ y then y else y - 399) / 400
  let yoe : Int := y - era * 400
  let mp : Int := ((d.month : Int) + 9) % 12
  let doy : Int := (153 * mp + 2) / 5 + (d.day : Int) - 1
  let doe : Int := yoe * 365 + yoe / 4 - yoe / 100 + doy
  era * 146097 + doe - 719468

/-- The ECMA-262 `TimeClip` bound: a Date's time value may lie at most
8.64e15 ms — 100,000,000 days — from the epoch; beyond it the Date becomes
Invalid. -/
def jsDateRangeDays : Int := 100000000

theorem daysFromEpoch_epoch : daysFromEpoch ⟨1970, 1, 1⟩ = 0 := by decide

/-- Sanity anchor: the last representable JS date, +275760-09-13, is
exactly 100,000,000 days after the epoch. -/
theorem daysFromEpoch_max : daysFromEpoch ⟨275760, 9, 13⟩ = jsDateRangeDays := by
  decide

/-- Model of `date.setDate(date.getDate() + k)` on a valid date: the
calendar shift by `k` days, clipped to Invalid Date (`none`) when the
result's time value leaves the representable range. -/
def setDateAdd (d : CDate) (k : Nat) : Option CDate :=
  if -jsDateRangeDays ≤ daysFromEpoch d + (k : Int) ∧
      daysFromEpoch d + (k : Int) ≤ jsDateRangeDays
  then some (addDays d k) else none

theorem setDateAdd_ne_none {d : CDate} {k : Nat} (h : setDateAdd d k ≠ none) :
    setDateAdd d k = some (addDays d k) := by
  unfold setDateAdd at h ⊢
  split at h
  · rw [if_pos (by assumption)]
  · exact absurd rfl h

theorem pad2_digits {a b : Char} (ha : isDigitCh a = true)
    (hb : isDigitCh b = true) :
    (pad2 (digitsToNat [a, b])).data = [a, b] := by
  have hva : a.toNat = 48 + digitVal a := by
    simp only [isDigitCh, Bool.and_eq_true, decide_eq_true_eq] at ha
    simp only [digitVal]; omega
  have hv : digitsToNat [a, b] = 10 * digitVal a + digitVal b := by
    simp [digitsToNat, digitVal]
  by_cases h0 : a = '0'
  · have hda : digitVal a = 0 := by subst h0; rfl
    have hdb : digitVal b < 10 := by
      simp only [isDigitCh, Bool.and_eq_true, decide_eq_true_eq] at hb
      simp only [digitVal]; omega
    have hsmall : digitsToNat [a, b] < 10 := by omega
    simp only [pad2, if_pos hsmall]
    have : natRepr (digitsToNat [a, b]) = ⟨[b]⟩ := by
      simp only [natRepr, natDigs_small hsmall]
      rw [hv, hda]
      simp only [Nat.mul_zero, Nat.zero_add]
      rw [digitChar_digitVal hb]
    rw [this, h0]
    rfl
  · have hlarge : ¬ digitsToNat [a, b] < 10 := by
      have : 1 ≤ digitVal a := by
        simp only [isDigitCh, Bool.and_eq_true, decide_eq_true_eq] at ha
        have : a.toNat ≠ 48 := by
          intro h
          exact h0 (char_toNat_inj (h.trans (by rfl)))
        simp only [digitVal]; omega
      have hdb : digitVal b < 10 := by
        simp only [isDigitCh, Bool.and_eq_true, decide_eq_true_eq] at hb
        simp only [digitVal]; omega
      omega
    simp only [pad2, if_neg hlarge, natRepr]
    rw [natDigs_digitsToNat [a, b] (by simp)
      (by intro c hc; simp at hc; rcases hc with h | h <;> simp [h, ha, hb])
      (by intro c hc; simp at hc; subst hc; exact h0)]

/-- Rendering is a left inverse of the plain-date parse: formatting a parsed
date gives back the input string. -/
theorem formatD_jsNewDate {s : String} {d : CDate}
    (h : jsNewDate s = some d) : formatD d = s := by
  apply String.ext
  unfold jsNewDate at h
  split at h
  · rename_i y1 y2 y3 y4 hch1 m1 m2 hch2 d1 d2 heq
    split at h
    · rename_i hcond
      obtain ⟨hh1, hh2, hy1, hy2, hy3, hy4, hm1, hm2, hd1, hd2⟩ := hcond
      dsimp only at h
      split at h
      · rename_i hvalid
        have hd := Option.some.inj h
        subst hd
        have hy1000 : 1000 ≤ digitsToNat [y1, y2, y3, y4] := by
          simp only [validCDate, Bool.and_eq_true, decide_eq_true_eq] at hvalid
          exact hvalid.1.1.1.1.1
        have hyhead : y1 ≠ '0' := by
          intro h0
          have hz : digitVal y1 = 0 := by subst h0; rfl
          have hb2 : digitVal y2 < 10 := by
            simp only [isDigitCh, Bool.and_eq_true, decide_eq_true_eq] at hy2
            simp only [digitVal]; omega
          have hb3 : digitVal y3 < 10 := by
            simp only [isDigitCh, Bool.and_eq_true, decide_eq_true_eq] at hy3
            simp only [digitVal]; omega
          have hb4 : digitVal y4 < 10 := by
            simp only [isDigitCh, Bool.and_eq_true, decide_eq_true_eq] at hy4
            simp only [digitVal]; omega
          have : digitsToNat [y1, y2, y3, y4] ≤ 999 := by
            simp only [digitsToNat, List.foldl_cons, List.foldl_nil]
            omega
          omega
        have hyear : (natRepr (digitsToNat [y1, y2, y3, y4])).data
            = [y1, y2, y3, y4] := by
          simp only [natRepr]
          rw [natDigs_digitsToNat [y1, y2, y3, y4] (by simp)
            (by intro c hc; simp at hc
                rcases hc with h | h | h | h <;> simp [h, hy1, hy2, hy3, hy4])
            (by intro c hc; simp at hc; subst hc; exact hyhead)]
        have hmonth := pad2_digits hm1 hm2
        have hday := pad2_digits hd1 hd2
        simp only [formatD, String.data_append, heq]
        rw [hyear, hmonth, hday, hh1, hh2]
        rfl
      · exact absurd h (by simp)
    · exact absurd h (by simp)
  · exact absurd h (by simp)

/-! ### Installment pattern matcher

transformer.ts `INSTALLMENT_PATTERNS` / `parseInstallments`.  Each regex is
embedded as a committed-choice matcher tried at every start position
(leftmost match wins), which agrees with the regexes here because after a
greedy `\d+` or an optional literal the following element can never consume
the same characters. -/

def isJsSpace (c : Char) : Bool :=
  c = ' ' || c = '\t' || c = '\n' || c = '\r' ||
    c.toNat = 11 || c.toNat = 12 || c.toNat = 160

/-- Model of regex `\s*`: drop leading whitespace. -/
def dropWs : List Char → List Char
  | [] => []
  | c :: rest => if isJsSpace c then dropWs rest else c :: rest

/-- Model of a regex literal: consume exactly the given characters. -/
def dropLit : List Char → List Char → Option (List Char)
  | [], l => some l
  | _ :: _, [] => none
  | p :: ps, c :: rest => if c = p then dropLit ps rest else none

def lowerAscii (c : Char) : Char :=
  if 'A' ≤ c ∧ c ≤ 'Z' then Char.ofNat (c.toNat + 32) else c

/-- Case-insensitive literal (patterns with the `i` flag). -/
def dropLitCI : List Char → List Char → Option (List Char)
  | [], l => some l
  | _ :: _, [] => none
  | p :: ps, c :: rest => if lowerAscii c = p then dropLitCI ps rest else none

/-- Model of a capturing `(\d+)`: greedy, at least one digit, parsed with
`parseInt(_, 10)`. -/
def takeDigits1 (l : List Char) : Option (Nat × List Char) :=
  let ds := l.takeWhile isDigitCh
  if ds.isEmpty then none else some (digitsToNat ds, l.dropWhile isDigitCh)

/-- Hebrew pattern `תשלום\s*(?:-\s*)?(\d+)\s*מ(?:תוך)?\s*-?\s*(\d+)`,
anchored at the current position. -/
def matchP1At (l : List Char) : Option (Nat × Nat) :=
  (dropLit "תשלום".data l).bind fun l1 =>
  let l2 := dropWs l1
  let l3 := match l2 with
    | '-' :: r => dropWs r
    | _ => l2
  (takeDigits1 l3).bind fun p =>
  let l4 := dropWs p.2
  (dropLit "מ".data l4).bind fun l5 =>
  let l6 := match dropLit "תוך".data l5 with
    | some r => r
    | none => l5
  let l7 := dropWs l6
  let l8 := match l7 with
    | '-' :: r => r
    | _ => l7
  let l9 := dropWs l8
  (takeDigits1 l9).map fun q => (p.1, q.1)

/-- Hebrew alternate pattern `(\d+)\s*מתוך\s*(\d+)`, anchored. -/
def matchP2At (l : List Char) : Option (Nat × Nat) :=
  (takeDigits1 l).bind fun p =>
  let l1 := dropWs p.2
  (dropLit "מתוך".data l1).bind fun l2 =>
  let l3 := dropWs l2
  (takeDigits1 l3).map fun q => (p.1, q.1)

/-- English pattern `payment\s*(\d+)\s*of\s*(\d+)` with the `i` flag,
anchored. -/
def matchP3At (l : List Char) : Option (Nat × Nat) :=
  (dropLitCI "payment".data l).bind fun l1 =>
  let l2 := dropWs l1
  (takeDigits1 l2).bind fun p =>
  let l3 := dropWs p.2
  (dropLitCI "of".data l3).bind fun l4 =>
  let l5 := dropWs l4
  (takeDigits1 l5).map fun q => (p.1, q.1)

/-- Model of `text.match(pattern)`: try the anchored matcher at every position from
the left; the first position that matches wins. -/
def scanPattern (p : List Char → Option (Nat × Nat)) : List Char → Option (Nat × Nat)
  | [] => p []
  | c :: rest =>
    match p (c :: rest) with
    | some r => some r
    | none => scanPattern p rest

structure InstallmentInfo where
  number : Int
  total : Int
deriving DecidableEq

/-- The per-pattern body of `parseInstallments`: on a match, validate
`number > 0 && total > 0 && number <= total`; an invalid match yields no
result, which makes the loop fall through to the next pattern. -/
def checkRange : Option (Nat × Nat) → Option InstallmentInfo
  | some p => if 0 < p.1 ∧ 0 < p.2 ∧ p.1 ≤ p.2 then some ⟨p.1, p.2⟩ else none
  | none => none

/-- transformer.ts `parseInstallments`. -/
def parseInstallments (text : String) : Option InstallmentInfo :=
  match checkRange (scanPattern matchP1At text.data) with
  | some i => some i
  | none =>
    match checkRange (scanPattern matchP2At text.data) with
    | some i => some i
    | none => checkRange (scanPattern matchP3At text.data)

/-! ### Transactions and the classifier -/

/-- Model of `EnrichedTransaction`: the scraper transaction plus the caller-attached
account fields.  Amounts are minor units (cents); optional fields are
`Option`s (`none` = `undefined`). -/
structure Txn where
  type : Option String
  date : Option String
  processedDate : Option String
  originalAmount : Option Int
  originalCurrency : Option String
  chargedAmount : Option Int
  description : String
  status : String
  identifier : Option String
  memo : Option String
  category : Option String
  installments : Option InstallmentInfo
  accountNumber : Option String
  accountName : Option String
deriving DecidableEq

/-- transformer.ts `shouldSkipTransaction`: pending first, then absent or
exactly-zero charged amount. -/
def shouldSkipTransaction (txn : Txn) : Bool :=
  if txn.status = "pending" then true
  else if txn.chargedAmount = none ∨ txn.chargedAmount = some 0 then true
  else false

structure SkippedItem where
  txn : Txn
  reason : String
deriving DecidableEq

/-- The reason expression inside `filterAndPartition`. -/
def skipReason (txn : Txn) : String :=
  if txn.status = "pending" then "Pending" else "Zero amount"

/-- transformer.ts `filterAndPartition`: one pass, pushing each transaction
onto `kept` or `skipped` in input order. -/
def filterAndPartition : List Txn → List Txn × List SkippedItem
  | [] => ([], [])
  | t :: rest =>
    let p := filterAndPartition rest
    if shouldSkipTransaction t then (p.1, ⟨t, skipReason t⟩ :: p.2)
    else (t :: p.1, p.2)

/-! ### Installment date adjustment -/

/-- transformer.ts `adjustInstallmentDate`, with the `formatDate` call kept
in `Except`: `formatDate` is applied to the `setDate`-mutated date, which
is Invalid — and therefore throws — when the installment shift clips past
the JS Date range. -/
def adjustInstallmentDateE (isoDate : String) (installmentNumber : Int) :
    Except String String :=
  match parseDate isoDate with
  | none => Except.ok isoDate
  | some d =>
    formatDateE (if 1 < installmentNumber
      then setDateAdd d (installmentNumber - 1).toNat else some d)

/-- The string `adjustInstallmentDate` returns on the runs where it does
not throw (the in-range and parse-failure cases); the throwing overflow
path is carried by `adjustInstallmentDateE`. -/
def adjustInstallmentDate (isoDate : String) (installmentNumber : Int) : String :=
  match parseDate isoDate with
  | none => isoDate
  | some d =>
    formatD (if 1 < installmentNumber
      then addDays d (installmentNumber - 1).toNat else d)

theorem adjustInstallmentDateE_ok_of_inRange (isoDate : String) (n : Int)
    (h : ∀ d, parseDate isoDate = some d → 1 < n →
      setDateAdd d (n - 1).toNat ≠ none) :
    adjustInstallmentDateE isoDate n
      = Except.ok (adjustInstallmentDate isoDate n) := by
  unfold adjustInstallmentDateE adjustInstallmentDate
  cases hp : parseDate isoDate with
  | none => rfl
  | some d =>
    dsimp only
    by_cases hn : 1 < n
    · rw [if_pos hn, if_pos hn, setDateAdd_ne_none (h d hp hn)]
      rfl
    · rw [if_neg hn, if_neg hn]
      rfl

theorem adjustInstallmentDateE_error {isoDate : String} {n : Int} {d : CDate}
    (hp : parseDate isoDate = some d) (hn : 1 < n)
    (hclip : setDateAdd d (n - 1).toNat = none) :
    adjustInstallmentDateE isoDate n = Except.error "Invalid date" := by
  unfold adjustInstallmentDateE
  rw [hp]
  dsimp only
  rw [if_pos hn, hclip]
  rfl

/-! ### Memo synthesis -/

/-- JS string truthiness of an optional string. -/
def strTruthy : Option String → Bool
  | none => false
  | some s => decide (s ≠ "")

/-- JS `a || b` on optional strings, collapsed to `none` when both operands
are falsy (the callers only test the result for truthiness). -/
def jsOrStr (a b : Option String) : Option String :=
  if strTruthy a then a else if strTruthy b then b else none

def jsonEscapeChar (c : Char) : List Char :=
  if c = '"' then ['\\', '"']
  else if c = '\\' then ['\\', '\\']
  else if c = '\n' then ['\\', 'n']
  else if c = '\t' then ['\\', 't']
  else if c = '\r' then ['\\', 'r']
  else [c]

/-- JSON string serialization (quote and escape). -/
def jsonQuote (s : String) : String :=
  ⟨'"' :: (s.data.foldr (fun c acc => jsonEscapeChar c ++ acc) ['"'])⟩

/-- JSON number serialization of a minor-unit amount: the JS number
`cents/100` printed without trailing fractional zeros. -/
def jsonNum (cents : Int) : String :=
  let a := cents.natAbs
  let sign := if cents < 0 then "-" else ""
  let frac := a % 100
  sign ++ natRepr (a / 100) ++
    (if frac = 0 then ""
     else if frac % 10 = 0 then "." ++ natRepr (frac / 10)
     else "." ++ pad2 frac)

def joinSep (sep : String) : List String → String
  | [] => ""
  | x :: xs =>
    match xs with
    | [] => x
    | _ :: _ => x ++ sep ++ joinSep sep xs

/-- Model of `JSON.stringify` of a flat object with pre-rendered values,
insertion order preserved. -/
def jsonObjCompact (fields : List (String × String)) : String :=
  "\x7b" ++ joinSep "," (fields.map fun kv => jsonQuote kv.1 ++ ":" ++ kv.2)
    ++ "\x7d"

/-- Step of `buildMemo`: the `transactionDate` entry, recorded when the raw
transaction date is truthy, differs from the processed date, and parses;
its `formatDate` call is kept in `Except`. -/
def memoTransactionDateE (txn : Txn) : Except String (List (String × String)) :=
  match txn.date, txn.processedDate with
  | some dt, some pd =>
    if dt ≠ "" ∧ pd ≠ "" ∧ dt ≠ pd then
      match parseDate dt with
      | some d =>
        (formatDateE (some d)).map fun v => [("transactionDate", jsonQuote v)]
      | none => Except.ok []
    else Except.ok []
  | _, _ => Except.ok []

/-- Step of `buildMemo`: the `chargeDate` entry, recorded when the processed
date is truthy and parses; its `formatDate` call is kept in `Except`. -/
def memoChargeDateE (txn : Txn) : Except String (List (String × String)) :=
  match txn.processedDate with
  | some pd =>
    if pd ≠ "" then
      match parseDate pd with
      | some d =>
        (formatDateE (some d)).map fun v => [("chargeDate", jsonQuote v)]
      | none => Except.ok []
    else Except.ok []
  | none => Except.ok []

/-- Steps of `buildMemo` after the two dates: installment, original amount and
currency, reference, account, source, type, category and bank memo entries,
in the source's insertion order. -/
def memoRest (txn : Txn) (installments : Option InstallmentInfo) :
    List (String × String) :=
  let f3 : List (String × String) :=
    match installments with
    | some i =>
      [("installment", jsonQuote (intRepr i.number ++ "/" ++ intRepr i.total))]
    | none =>
      match txn.installments with
      | some i =>
        if i.number ≠ 0 ∧ i.total ≠ 0 then
          [("installment", jsonQuote (intRepr i.number ++ "/" ++ intRepr i.total))]
        else []
      | none => []
  let f4 : List (String × String) :=
    match txn.originalAmount, txn.chargedAmount with
    | some oa, some ca =>
      if 1 < (oa - ca).natAbs then
        ("originalAmount", jsonNum oa) ::
          (match txn.originalCurrency with
           | some oc => if oc ≠ "" then [("originalCurrency", jsonQuote oc)] else []
           | none => [])
      else []
    | _, _ => []
  let f5 : List (String × String) :=
    match txn.identifier with
    | some v => if v ≠ "" then [("ref", jsonQuote v)] else []
    | none => []
  let f6 : List (String × String) :=
    match txn.accountNumber with
    | some v => if v ≠ "" then [("account", jsonQuote v)] else []
    | none => []
  let f7 : List (String × String) :=
    match txn.accountName with
    | some v => if v ≠ "" then [("source", jsonQuote v)] else []
    | none => []
  let f8 : List (String × String) :=
    match txn.type with
    | some v => if v ≠ "" ∧ v ≠ "normal" then [("type", jsonQuote v)] else []
    | none => []
  let f9 : List (String × String) :=
    match txn.category with
    | some v => if v ≠ "" then [("category", jsonQuote v)] else []
    | none => []
  let f10 : List (String × String) :=
    match txn.memo with
    | some v => if v ≠ "" then [("bankMemo", jsonQuote v)] else []
    | none => []
  f3 ++ f4 ++ f5 ++ f6 ++ f7 ++ f8 ++ f9 ++ f10

/-- transformer.ts `buildMemo`, with the two `formatDate` calls (made on
dates `parseDate` has just validated) kept in `Except`: the entries are
accumulated in insertion order and serialized compactly, or the empty
string when no entry was recorded. -/
def buildMemoE (txn : Txn) (installments : Option InstallmentInfo) :
    Except String String :=
  (memoTransactionDateE txn).bind fun v1 =>
  (memoChargeDateE txn).map fun v2 =>
    match v1 ++ v2 ++ memoRest txn installments with
    | [] => ""
    | f :: fs => jsonObjCompact (f :: fs)

def exGetD : Except String String → String → String
  | Except.ok v, _ => v
  | Except.error _, dflt => dflt

/-- Value of `buildMemo`; `buildMemoE` is proven to always return it with
`Except.ok`. -/
def buildMemo (txn : Txn) (installments : Option InstallmentInfo) : String :=
  exGetD (buildMemoE txn installments) ""

theorem memoTransactionDateE_ok (txn : Txn) :
    ∃ v, memoTransactionDateE txn = Except.ok v := by
  unfold memoTransactionDateE
  rcases txn.date with _ | dt <;> rcases txn.processedDate with _ | pd
  · exact ⟨_, rfl⟩
  · exact ⟨_, rfl⟩
  · exact ⟨_, rfl⟩
  · dsimp only
    split
    · cases parseDate dt <;> exact ⟨_, rfl⟩
    · exact ⟨_, rfl⟩

theorem memoChargeDateE_ok (txn : Txn) :
    ∃ v, memoChargeDateE txn = Except.ok v := by
  unfold memoChargeDateE
  rcases txn.processedDate with _ | pd
  · exact ⟨_, rfl⟩
  · dsimp only
    split
    · cases parseDate pd <;> exact ⟨_, rfl⟩
    · exact ⟨_, rfl⟩

theorem buildMemoE_ok (txn : Txn) (installments : Option InstallmentInfo) :
    buildMemoE txn installments
      = Except.ok (buildMemo txn installments) := by
  obtain ⟨v1, h1⟩ := memoTransactionDateE_ok txn
  obtain ⟨v2, h2⟩ := memoChargeDateE_ok txn
  unfold buildMemo buildMemoE
  rw [h1, h2]
  rfl

/-! ### Row transformer -/

structure YnabRow where
  date : String
  payee : String
  memo : String
  outflow : String
  inflow : String
deriving DecidableEq

/-- JS `x.toFixed(2)` for the non-negative number `cents/100`. -/
def fixed2 (cents : Nat) : String :=
  natRepr (cents / 100) ++ "." ++ pad2 (cents % 100)

/-- JS `String.prototype.trim`. -/
def trimJs (s : String) : String :=
  ⟨((dropWs s.data).reverse |> dropWs).reverse⟩

/-- The installment-resolution step of `transformTransaction`: the parsed
description, falling back to a truthy pre-computed installment record. -/
def resolveInstallments (txn : Txn) : Option InstallmentInfo :=
  match parseInstallments txn.description with
  | some i => some i
  | none =>
    match txn.installments with
    | some i =>
      if i.number ≠ 0 ∧ i.total ≠ 0 then some ⟨i.number, i.total⟩ else none
    | none => none

/-- The governing raw date of `transformTransaction`:
`txn.processedDate || txn.date`. -/
def govDate (txn : Txn) : Option String := jsOrStr txn.processedDate txn.date

/-- transformer.ts `transformTransaction`, with every `formatDate` call kept
in `Except`.  When the transaction is skipped, the governing date is falsy,
or (without an installment number above 1) the governing date does not
parse, the result is `Except.ok none`. -/
def transformTransactionE (txn : Txn) : Except String (Option YnabRow) :=
  if shouldSkipTransaction txn then Except.ok none
  else
    let installments := resolveInstallments txn
    match govDate txn with
    | none => Except.ok none
    | some rawDate =>
      let dateE : Except String (Option String) :=
        match installments with
        | some i =>
          if 1 < i.number then (adjustInstallmentDateE rawDate i.number).map some
          else
            match parseDate rawDate with
            | none => Except.ok none
            | some p => (formatDateE (some p)).map some
        | none =>
          match parseDate rawDate with
          | none => Except.ok none
          | some p => (formatDateE (some p)).map some
      dateE.bind fun dateOpt =>
        match dateOpt with
        | none => Except.ok none
        | some date =>
          (buildMemoE txn installments).map fun memo =>
            let amount := txn.chargedAmount.getD 0
            some { date := date
                   payee := trimJs txn.description
                   memo := memo
                   outflow := if amount < 0 then fixed2 amount.natAbs else ""
                   inflow := if 0 < amount then fixed2 amount.natAbs else "" }

/-- The row value `transformTransaction` returns on the runs where it does
not throw; `transformTransactionE` above is the faithful embedding
including the (reachable) `formatDate` throw, and is proven below to
return `Except.ok` of this value on every non-throwing run. -/
def transformTransaction (txn : Txn) : Option YnabRow :=
  if shouldSkipTransaction txn then none
  else
    match govDate txn with
    | none => none
    | some rawDate =>
      match
        (match resolveInstallments txn with
         | some i =>
           if 1 < i.number then some (adjustInstallmentDate rawDate i.number)
           else (parseDate rawDate).map formatD
         | none => (parseDate rawDate).map formatD) with
      | none => none
      | some date =>
        some { date := date
               payee := trimJs txn.description
               memo := buildMemo txn (resolveInstallments txn)
               outflow := if txn.chargedAmount.getD 0 < 0
                 then fixed2 (txn.chargedAmount.getD 0).natAbs else ""
               inflow := if 0 < txn.chargedAmount.getD 0
                 then fixed2 (txn.chargedAmount.getD 0).natAbs else "" }

/-- Model of `localeCompare`-based row comparison:
`rows.sort((a, b) => b.date.localeCompare(a.date))` sorts so that of two
adjacent rows the earlier one's date compares at least the later one's
under the host's collation `lc`, which is a parameter (locale collation is
supplied by the host, like the hash in `recordOutput`). -/
def transformTransactions (lc : String → String → Int) (txns : List Txn) :
    List YnabRow :=
  (txns.filterMap transformTransaction).mergeSort
    fun a b => decide (lc b.date a.date ≤ 0)

/-! ### Aggregator -/

/-- The JS number value of an optional minor-unit amount with the `?? 0`
default. -/
def centsToQ (c : Int) : ℚ := (c : ℚ) / 100

structure AccountSummaryData where
  count : Nat
  outflow : ℚ
  inflow : ℚ
deriving DecidableEq

structure TransactionSummary where
  byAccount : List (String × AccountSummaryData)
  totalOutflow : ℚ
  totalInflow : ℚ
deriving DecidableEq

/-- Model of `Map.get`: first binding of the key, if any. -/
def alGet : List (String × AccountSummaryData) → String → Option AccountSummaryData
  | [], _ => none
  | (k, v) :: rest, key => if k = key then some v else alGet rest key

/-- Model of `Map.set`: replace the existing binding in place, else append, so the
JS `Map`'s insertion order is preserved. -/
def alSet : List (String × AccountSummaryData) → String → AccountSummaryData →
    List (String × AccountSummaryData)
  | [], key, v => [(key, v)]
  | (k, w) :: rest, key, v =>
    if k = key then (k, v) :: rest else (k, w) :: alSet rest key v

/-- One iteration of the `calculateSummary` loop. -/
def summStep (m : List (String × AccountSummaryData)) (txn : Txn) :
    List (String × AccountSummaryData) :=
  let key := txn.accountName.getD "unknown"
  let existing := (alGet m key).getD ⟨0, 0, 0⟩
  let amount := centsToQ (txn.chargedAmount.getD 0)
  alSet m key
    { count := existing.count + 1
      outflow := existing.outflow + (if amount < 0 then |amount| else 0)
      inflow := existing.inflow + (if 0 < amount then amount else 0) }

/-- transformer.ts `calculateSummary`: per-account map built in one pass,
then totals summed over the map's values. -/
def calculateSummary (txns : List Txn) : TransactionSummary :=
  let byAccount := txns.foldl summStep []
  { byAccount := byAccount
    totalOutflow := (byAccount.map fun p => p.2.outflow).sum
    totalInflow := (byAccount.map fun p => p.2.inflow).sum }

/-- Outflow contribution of one transaction to the aggregates. -/
def txnOutflowQ (txn : Txn) : ℚ :=
  let amount := centsToQ (txn.chargedAmount.getD 0)
  if amount < 0 then |amount| else 0

/-- Inflow contribution of one transaction to the aggregates. -/
def txnInflowQ (txn : Txn) : ℚ :=
  let amount := centsToQ (txn.chargedAmount.getD 0)
  if 0 < amount then amount else 0

/-- Sum of a projected field over the per-account map. -/
def alSum (f : AccountSummaryData → ℚ) (m : List (String × AccountSummaryData)) : ℚ :=
  (m.map fun p => f p.2).sum

/-- Recorded count under a key, `0` when the key is absent. -/
def countAt (m : List (String × AccountSummaryData)) (k : String) : Nat :=
  match alGet m k with
  | some w => w.count
  | none => 0

theorem alGet_alSet (m : List (String × AccountSummaryData)) (key : String)
    (v : AccountSummaryData) (k : String) :
    alGet (alSet m key v) k = if key = k then some v else alGet m k := by
  induction m with
  | nil =>
    simp only [alSet, alGet]
  | cons p rest ih =>
    obtain ⟨pk, pv⟩ := p
    simp only [alSet]
    split_ifs with hpk <;> simp only [alGet, ih] <;> split_ifs <;> simp_all

theorem alSum_alSet (f : AccountSummaryData → ℚ)
    (m : List (String × AccountSummaryData)) (key : String)
    (v : AccountSummaryData) :
    alSum f (alSet m key v)
      = alSum f m + f v - (match alGet m key with | some w => f w | none => 0) := by
  induction m with
  | nil => simp [alSet, alSum, alGet]
  | cons p rest ih =>
    obtain ⟨pk, pv⟩ := p
    simp only [alSet, alGet]
    by_cases hk : pk = key
    · simp only [if_pos hk, alSum, List.map_cons, List.sum_cons]
      ring
    · simp only [if_neg hk, alSum, List.map_cons, List.sum_cons]
      simp only [alSum] at ih
      rw [ih]
      cases alGet rest key <;> ring

theorem summStep_outflow (m : List (String × AccountSummaryData)) (t : Txn) :
    alSum (fun w => w.outflow) (summStep m t)
      = alSum (fun w => w.outflow) m + txnOutflowQ t := by
  unfold summStep txnOutflowQ
  rw [alSum_alSet]
  cases alGet m (t.accountName.getD "unknown") <;>
    simp [Option.getD] <;> ring

theorem summStep_inflow (m : List (String × AccountSummaryData)) (t : Txn) :
    alSum (fun w => w.inflow) (summStep m t)
      = alSum (fun w => w.inflow) m + txnInflowQ t := by
  unfold summStep txnInflowQ
  rw [alSum_alSet]
  cases alGet m (t.accountName.getD "unknown") <;>
    simp [Option.getD] <;> ring

theorem summStep_count (m : List (String × AccountSummaryData)) (t : Txn)
    (k : String) :
    countAt (summStep m t) k
      = countAt m k + (if t.accountName.getD "unknown" = k then 1 else 0) := by
  unfold summStep countAt
  rw [alGet_alSet]
  by_cases hk : t.accountName.getD "unknown" = k
  · rw [if_pos hk, if_pos hk, ← hk]
    cases alGet m (t.accountName.getD "unknown") <;> simp [Option.getD]
  · rw [if_neg hk, if_neg hk]
    simp

theorem foldl_summStep_outflow (txns : List Txn) :
    ∀ m, alSum (fun w => w.outflow) (txns.foldl summStep m)
      = alSum (fun w => w.outflow) m + (txns.map txnOutflowQ).sum := by
  induction txns with
  | nil => intro m; simp
  | cons t rest ih =>
    intro m
    simp only [List.foldl_cons, List.map_cons, List.sum_cons]
    rw [ih, summStep_outflow]
    ring

theorem foldl_summStep_inflow (txns : List Txn) :
    ∀ m, alSum (fun w => w.inflow) (txns.foldl summStep m)
      = alSum (fun w => w.inflow) m + (txns.map txnInflowQ).sum := by
  induction txns with
  | nil => intro m; simp
  | cons t rest ih =>
    intro m
    simp only [List.foldl_cons, List.map_cons, List.sum_cons]
    rw [ih, summStep_inflow]
    ring

theorem foldl_summStep_count (txns : List Txn) :
    ∀ m k, countAt (txns.foldl summStep m) k
      = countAt m k
        + (txns.filter fun t => t.accountName.getD "unknown" = k).length := by
  induction txns with
  | nil => intro m k; simp
  | cons t rest ih =>
    intro m k
    simp only [List.foldl_cons, List.filter_cons]
    by_cases hk : t.accountName.getD "unknown" = k
    · rw [ih, summStep_count, if_pos hk]
      simp [hk]
      omega
    · rw [ih, summStep_count, if_neg hk]
      simp [hk]

/-! ### Audit logger (audit-logger.ts) -/

/-- Model of JS `parseFloat`: leading whitespace, an optional sign, then a
decimal literal `digits [. digits]` read as an exact rational; `none` is
`NaN` (exponent forms are outside the model — the rows parsed here carry
fixed-point strings). -/
def parseFloatQ (s : String) : Option ℚ :=
  let l := dropWs s.data
  let sign : ℚ := if l.head? = some '-' then -1 else 1
  let l1 := if l.head? = some '-' ∨ l.head? = some '+' then l.tail else l
  let ip := l1.takeWhile isDigitCh
  let rest := l1.dropWhile isDigitCh
  let fp := if rest.head? = some '.' then rest.tail.takeWhile isDigitCh else []
  if ip.isEmpty ∧ fp.isEmpty then none
  else some (sign * ((digitsToNat ip : ℚ) + (digitsToNat fp : ℚ) / 10 ^ fp.length))

/-- Model of `parseFloat(x) || 0`: `NaN` (and `0` itself) collapses to `0`. -/
def parseFloatOr0 (s : String) : ℚ := (parseFloatQ s).getD 0

structure SkippedTransaction where
  reason : String
  description : String
  amount : ℚ
  date : String
deriving DecidableEq

structure AccountSummary where
  name : String
  transactionCount : Nat
  totalOutflow : ℚ
  totalInflow : ℚ
deriving DecidableEq

/-- scraper.ts `ScrapeResult`. -/
structure ScrapeResult where
  accountName : String
  success : Bool
  transactions : List Txn
  error : Option String
deriving DecidableEq

/-- The per-result record stored by `recordRawScrapeResults`. -/
structure RawResult where
  accountName : String
  success : Bool
  error : Option String
  transactions : List Txn
deriving DecidableEq

/-- audit-logger.ts `AuditLog`. -/
structure AuditLog where
  timestamp : String
  accounts : List AccountSummary
  skipped : List SkippedTransaction
  outputFile : Option String
  outputTransactionCount : Nat
  totalOutflow : ℚ
  totalInflow : ℚ
  checksum : Option String
  rawScraperResults : Option (List RawResult)
  transformationDetails : Option (List (Txn × YnabRow))
  detailedLoggingLimit : Option Int
deriving DecidableEq

/-- The state `createAuditLogger` starts from (the timestamp is the run
start instant, supplied by the host clock). -/
def createAuditLog (timestamp : String) : AuditLog :=
  { timestamp := timestamp
    accounts := []
    skipped := []
    outputFile := none
    outputTransactionCount := 0
    totalOutflow := 0
    totalInflow := 0
    checksum := none
    rawScraperResults := none
    transformationDetails := none
    detailedLoggingLimit := none }

/-- audit-logger.ts `recordScrapeResults`: append one account summary per successful result,
with outflow/inflow computed from that result's raw transactions; failed
results are skipped. -/
def recordScrapeResults (log : AuditLog) (results : List ScrapeResult) : AuditLog :=
  { log with
    accounts := log.accounts ++ (results.filter fun r => r.success).map fun r =>
      { name := r.accountName
        transactionCount := r.transactions.length
        totalOutflow := (r.transactions.map txnOutflowQ).sum
        totalInflow := (r.transactions.map txnInflowQ).sum } }

/-- audit-logger.ts `recordRawScrapeResults`: store the raw results, truncating each
result's transaction list to `limit` when `limit > 0`. -/
def recordRawScrapeResults (log : AuditLog) (results : List ScrapeResult)
    (limit : Int) : AuditLog :=
  { log with
    detailedLoggingLimit := some limit
    rawScraperResults := some (results.map fun r =>
      { accountName := r.accountName
        success := r.success
        error := r.error
        transactions :=
          if 0 < limit then r.transactions.take limit.toNat
          else r.transactions }) }

/-- audit-logger.ts `recordSkipped`: append one skipped item, with the
date taken by the nullish chain processedDate, date, "unknown". -/
def recordSkipped (log : AuditLog) (txn : Txn) (reason : String) : AuditLog :=
  { log with
    skipped := log.skipped ++ [{
      reason := reason
      description := txn.description
      amount := centsToQ (txn.chargedAmount.getD 0)
      date := match txn.processedDate with
        | some pd => pd
        | none => txn.date.getD "unknown" }] }

/-- audit-logger.ts `recordTransformations`: store (overwriting) at most `limit` pairs when
`limit > 0`, all of them otherwise. -/
def recordTransformations (log : AuditLog)
    (pairs : List (Txn × YnabRow)) (limit : Int) : AuditLog :=
  { log with
    transformationDetails :=
      some (if 0 < limit then pairs.take limit.toNat else pairs) }

/-- audit-logger.ts `recordOutput`: overwrite the file reference, row count and checksum,
and accumulate (`+=`) the totals re-parsed from the rows' decimal strings.
`hash` abstracts the external `createHash("sha256")...slice(0, 16)`. -/
def recordOutput (hash : String → String) (log : AuditLog) (rows : List YnabRow)
    (outputPath : String) (csvContent : String) : AuditLog :=
  { log with
    outputFile := some outputPath
    outputTransactionCount := rows.length
    totalOutflow := log.totalOutflow + (rows.map fun r => parseFloatOr0 r.outflow).sum
    totalInflow := log.totalInflow + (rows.map fun r => parseFloatOr0 r.inflow).sum
    checksum := some (hash csvContent) }

/-! ### Report rendering (formatAuditLog) -/

/-- Round a non-negative rational to minor units as `toLocaleString` does
(half away from zero). -/
def qCents (q : ℚ) : Nat := (Int.floor (|q| * 100 + 1 / 2)).toNat

/-- Insert thousands separators: input and output are reversed digit
lists. -/
def group3Aux : Nat → List Char → List Char
  | 0, l => l
  | _ + 1, [] => []
  | _ + 1, [a] => [a]
  | _ + 1, [a, b] => [a, b]
  | _ + 1, [a, b, c] => [a, b, c]
  | fuel + 1, a :: b :: c :: d :: rest =>
    a :: b :: c :: ',' :: group3Aux fuel (d :: rest)

def groupDigits (l : List Char) : List Char :=
  (group3Aux l.length l.reverse).reverse

/-- audit-logger.ts `formatCurrency`:
`"₪" + amount.toLocaleString("en-US", ...)` with minimum and maximum
fraction digits 2. -/
def formatCurrency (amount : ℚ) : String :=
  let cents := qCents amount
  "₪" ++ (if amount < 0 then "-" else "") ++
    ⟨groupDigits (natDigs (cents / 100))⟩ ++ "." ++ pad2 (cents % 100)

/-- Model of `skipped.date.split("T")[0]`. -/
def splitT (s : String) : String :=
  ⟨s.data.takeWhile fun c => c ≠ 'T'⟩

def jsBoolStr : Bool → String
  | true => "true"
  | false => "false"

def optStrField (k : String) : Option String → List (String × String)
  | some v => [(k, jsonQuote v)]
  | none => []

def optNumField (k : String) : Option Int → List (String × String)
  | some v => [(k, jsonNum v)]
  | none => []

/-- The fields `JSON.stringify` sees on an `EnrichedTransaction`, in the
object's insertion order (absent optional fields are skipped). -/
def jsonTxnFields (t : Txn) : List (String × String) :=
  optStrField "type" t.type ++
  optStrField "date" t.date ++
  optStrField "processedDate" t.processedDate ++
  optNumField "originalAmount" t.originalAmount ++
  optStrField "originalCurrency" t.originalCurrency ++
  optNumField "chargedAmount" t.chargedAmount ++
  [("description", jsonQuote t.description), ("status", jsonQuote t.status)] ++
  optStrField "identifier" t.identifier ++
  optStrField "memo" t.memo ++
  optStrField "category" t.category ++
  (match t.installments with
   | some i =>
     [("installments",
       "\x7b\n    \"number\": " ++ intRepr i.number ++
         ",\n    \"total\": " ++ intRepr i.total ++ "\n  \x7d")]
   | none => []) ++
  optStrField "accountNumber" t.accountNumber ++
  optStrField "accountName" t.accountName

/-- Model of `JSON.stringify(obj, null, 2)` for a flat object of
pre-rendered values. -/
def jsonObjPretty (fields : List (String × String)) : String :=
  match fields with
  | [] => "\x7b\x7d"
  | _ :: _ =>
    "\x7b\n" ++
      joinSep ",\n" (fields.map fun kv => "  " ++ jsonQuote kv.1 ++ ": " ++ kv.2)
      ++ "\n\x7d"

def jsonOfTxn (t : Txn) : String := jsonObjPretty (jsonTxnFields t)

def jsonOfRow (r : YnabRow) : String :=
  jsonObjPretty
    [("date", jsonQuote r.date), ("payee", jsonQuote r.payee),
     ("memo", jsonQuote r.memo), ("outflow", jsonQuote r.outflow),
     ("inflow", jsonQuote r.inflow)]

/-- Model of `.split("\n").join("\n    ")`. -/
def indentNL (s : String) : String :=
  ⟨s.data.foldr
    (fun c acc =>
      if c = '\n' then '\n' :: ' ' :: ' ' :: ' ' :: ' ' :: acc else c :: acc)
    []⟩

def numbered (f : Nat → α → List String) : Nat → List α → List String
  | _, [] => []
  | i, x :: xs => f i x ++ numbered f (i + 1) xs

def accountLines (log : AuditLog) : List String :=
  match log.accounts with
  | [] => ["  (none)"]
  | _ :: _ =>
    log.accounts.map fun a =>
      "  " ++ a.name ++ ": " ++ natRepr a.transactionCount ++
        " transactions (" ++ formatCurrency a.totalOutflow ++ " out, " ++
        formatCurrency a.totalInflow ++ " in)"

def skippedLines (log : AuditLog) : List String :=
  match log.skipped with
  | [] => ["  (none)"]
  | _ :: _ =>
    log.skipped.map fun s =>
      "  - " ++ s.reason ++ ": \"" ++ s.description ++ "\" " ++
        formatCurrency |s.amount| ++ " (" ++ splitT s.date ++ ")"

def outputLines (log : AuditLog) : List String :=
  if strTruthy log.outputFile then
    ["Output: " ++ log.outputFile.getD "",
     "  " ++ natRepr log.outputTransactionCount ++ " transactions",
     "  Total: " ++ formatCurrency log.totalOutflow ++ " outflow, " ++
       formatCurrency log.totalInflow ++ " inflow",
     "",
     "Checksum: " ++ log.checksum.getD "null"]
  else
    ["Output: (none - dry run or no transactions)"]

/-- The `(Showing …)` header of a detailed section: truthy positive limit
shows the first-N wording. -/
def limitLine (log : AuditLog) (first alt : String) : List String :=
  match log.detailedLoggingLimit with
  | some l =>
    if 0 < l then ["  (Showing first " ++ intRepr l ++ first] else [alt]
  | none => [alt]

def rawResultLines (r : RawResult) : List String :=
  ["Account: " ++ r.accountName, "  Success: " ++ jsBoolStr r.success] ++
  (match r.error with
   | some e => if e ≠ "" then ["  Error: " ++ e] else []
   | none => []) ++
  ["  Transactions (" ++ natRepr r.transactions.length ++ "):"] ++
  numbered
    (fun i t => ["    [" ++ natRepr i ++ "] " ++ indentNL (jsonOfTxn t)]) 1
    r.transactions ++
  [""]

/-- The `=== DETAILED LOGGING === / Raw Scraper Results:` block: rendered
whenever raw scraper results were recorded and non-empty. -/
def rawSection (log : AuditLog) : List String :=
  match log.rawScraperResults with
  | some (r :: rs) =>
    ["", "=== DETAILED LOGGING ===", "", "Raw Scraper Results:"] ++
    limitLine log " transaction(s) per account)" "  (Showing all transactions)" ++
    [""] ++ (((r :: rs).map rawResultLines).flatten)
  | some [] => []
  | none => []

def pairLines (i : Nat) (p : Txn × YnabRow) : List String :=
  ["[" ++ natRepr i ++ "] RAW:",
   "    " ++ indentNL (jsonOfTxn p.1),
   "    TRANSFORMED:",
   "    " ++ indentNL (jsonOfRow p.2),
   ""]

/-- The `Transformation Details:` block: rendered whenever transformation
pairs were recorded and non-empty. -/
def transfSection (log : AuditLog) : List String :=
  match log.transformationDetails with
  | some (p :: ps) =>
    ["", "Transformation Details:"] ++
    limitLine log " transformation(s))" "  (Showing all transformations)" ++
    [""] ++ numbered pairLines 1 (p :: ps)
  | some [] => []
  | none => []

/-- audit-logger.ts `formatAuditLog`: the full report, `join("\n")` of the
header, accounts, skipped, output and optional detailed sections. -/
def formatAuditLog (log : AuditLog) : String :=
  joinSep "\n" (
    ["=== Scrape Run: " ++ log.timestamp ++ " ===", "", "Accounts:"] ++
    accountLines log ++ [""] ++
    ["Skipped (" ++ natRepr log.skipped.length ++ "):"] ++
    skippedLines log ++ [""] ++
    outputLines log ++
    rawSection log ++
    transfSection log)

/-! ### Fixed-point round-trip: `parseFloat` of `toFixed(2)` -/

theorem natDigs_digits (n : Nat) : ∀ c ∈ natDigs n, isDigitCh c = true := by
  induction n using Nat.strong_induction_on with
  | _ n ih =>
    by_cases h : n < 10
    · rw [natDigs_small h]
      intro c hc
      simp only [List.mem_singleton] at hc
      subst hc
      interval_cases n <;> rfl
    · have hn : n = 10 * (n / 10) + n % 10 := by omega
      rw [hn, natDigs_step (by omega) (by omega)]
      intro c hc
      rcases List.mem_append.mp hc with h1 | h1
      · exact ih (n / 10) (by omega) c h1
      · simp only [List.mem_singleton] at h1
        subst h1
        have : n % 10 < 10 := by omega
        interval_cases h : n % 10 <;> rfl

theorem natDigs_ne_nil (n : Nat) : natDigs n ≠ [] := by
  by_cases h : n < 10
  · rw [natDigs_small h]; simp
  · have hn : n = 10 * (n / 10) + n % 10 := by omega
    rw [hn, natDigs_step (by omega) (by omega)]
    simp

theorem takeWhile_all_append (p : Char → Bool) (A : List Char)
    (hA : ∀ a ∈ A, p a = true) (B : List Char) :
    (A ++ B).takeWhile p = A ++ B.takeWhile p := by
  induction A with
  | nil => simp
  | cons a t ih =>
    have ha : p a = true := hA a (by simp)
    simp only [List.cons_append, List.takeWhile_cons, ha]
    rw [ih fun x hx => hA x (by simp [hx])]
    simp

theorem dropWhile_all_append (p : Char → Bool) (A : List Char)
    (hA : ∀ a ∈ A, p a = true) (B : List Char) :
    (A ++ B).dropWhile p = B.dropWhile p := by
  induction A with
  | nil => simp
  | cons a t ih =>
    have ha : p a = true := hA a (by simp)
    simp only [List.cons_append, List.dropWhile_cons, ha]
    rw [ih fun x hx => hA x (by simp [hx])]
    simp

theorem takeWhile_none (p : Char → Bool) (B : List Char)
    (hB : ∀ b ∈ B, p b = false) : B.takeWhile p = [] := by
  cases B with
  | nil => rfl
  | cons b t =>
    have : p b = false := hB b (by simp)
    simp [List.takeWhile_cons, this]

theorem pad2_data_digits (m : Nat) (hm : m < 100) :
    (∀ c ∈ (pad2 m).data, isDigitCh c = true) ∧ (pad2 m).data.length = 2 ∧
      digitsToNat (pad2 m).data = m := by
  by_cases h : m < 10
  · have : (pad2 m).data = '0' :: natDigs m := by
      simp [pad2, h, natRepr]
    rw [this]
    refine ⟨?_, ?_, ?_⟩
    · intro c hc
      rcases List.mem_cons.mp hc with h1 | h1
      · subst h1; rfl
      · exact natDigs_digits m c h1
    · rw [natDigs_small h]; rfl
    · simp only [digitsToNat, List.foldl_cons]
      rw [show 10 * 0 + digitVal '0' = 0 from rfl]
      exact digitsToNat_natDigs m
  · have hstep : natDigs m = natDigs (m / 10) ++ [Nat.digitChar (m % 10)] := by
      conv_lhs => rw [show m = 10 * (m / 10) + m % 10 by omega]
      exact natDigs_step (by omega) (by omega)
    have hq : m / 10 < 10 := by omega
    have : (pad2 m).data = natDigs m := by
      rw [show pad2 m = natRepr m by simp [pad2, h]]
      rfl
    rw [this, hstep, natDigs_small hq]
    refine ⟨?_, rfl, ?_⟩
    · intro c hc
      have hd2 : c = Nat.digitChar (m / 10) ∨ c = Nat.digitChar (m % 10) := by
        simpa using hc
      rcases hd2 with h1 | h1 <;> subst h1
      · interval_cases hh : m / 10 <;> rfl
      · have : m % 10 < 10 := by omega
        interval_cases hh : m % 10 <;> rfl
    · simp [digitsToNat, digitVal_digitChar hq, digitVal_digitChar
        (show m % 10 < 10 by omega)]
      omega

theorem isDigitCh_not_space {c : Char} (h : isDigitCh c = true) :
    isJsSpace c = false := by
  simp only [isDigitCh, Bool.and_eq_true, decide_eq_true_eq] at h
  have h32 : ¬ c = ' ' := fun hc => by subst hc; exact absurd h (by decide)
  have h9 : ¬ c = '\t' := fun hc => by subst hc; exact absurd h (by decide)
  have h10 : ¬ c = '\n' := fun hc => by subst hc; exact absurd h (by decide)
  have h13 : ¬ c = '\r' := fun hc => by subst hc; exact absurd h (by decide)
  simp only [isJsSpace, Bool.or_eq_false_iff, decide_eq_false_iff_not]
  refine ⟨⟨⟨⟨⟨⟨h32, h9⟩, h10⟩, h13⟩, ?_⟩, ?_⟩, ?_⟩ <;> omega

theorem takeWhile_all (p : Char → Bool) (A : List Char)
    (hA : ∀ a ∈ A, p a = true) : A.takeWhile p = A := by
  have := takeWhile_all_append p A hA []
  simpa using this

/-- Parsing a `toFixed(2)` rendering recovers the exact minor-unit value. -/
theorem parseFloatOr0_fixed2 (n : Nat) :
    parseFloatOr0 (fixed2 n) = (n : ℚ) / 100 := by
  have hdata : (fixed2 n).data
      = natDigs (n / 100) ++ ('.' :: (pad2 (n % 100)).data) := by
    simp [fixed2, natRepr]
  obtain ⟨hfd, hfl, hfv⟩ := pad2_data_digits (n % 100) (by omega)
  have hipd := natDigs_digits (n / 100)
  obtain ⟨c, t, hnd⟩ : ∃ c t, natDigs (n / 100) = c :: t := by
    cases hx : natDigs (n / 100) with
    | nil => exact absurd hx (natDigs_ne_nil _)
    | cons c t => exact ⟨c, t, rfl⟩
  have hc : isDigitCh c = true := by
    apply hipd; rw [hnd]; simp
  have hdata2 : (fixed2 n).data = c :: (t ++ ('.' :: (pad2 (n % 100)).data)) := by
    rw [hdata, hnd]; rfl
  have hdrop : dropWs (fixed2 n).data = (fixed2 n).data := by
    rw [hdata2]
    simp [dropWs, isDigitCh_not_space hc]
  have hcnum : 48 ≤ c.toNat ∧ c.toNat ≤ 57 := by
    simpa [isDigitCh] using hc
  have hhead : ((fixed2 n).data.head? = some '-') = False := by
    simp only [hdata2, List.head?_cons, Option.some.injEq, eq_iff_iff,
      iff_false]
    intro h
    subst h
    exact absurd hcnum (by decide)
  have hhead2 : ((fixed2 n).data.head? = some '+') = False := by
    simp only [hdata2, List.head?_cons, Option.some.injEq, eq_iff_iff,
      iff_false]
    intro h
    subst h
    exact absurd hcnum (by decide)
  have hip : (fixed2 n).data.takeWhile isDigitCh = natDigs (n / 100) := by
    rw [hdata, takeWhile_all_append isDigitCh _ hipd]
    have hdot : isDigitCh '.' = false := by rfl
    simp [List.takeWhile_cons, hdot]
  have hrest : (fixed2 n).data.dropWhile isDigitCh
      = '.' :: (pad2 (n % 100)).data := by
    rw [hdata, dropWhile_all_append isDigitCh _ hipd]
    have hdot : isDigitCh '.' = false := by rfl
    simp [List.dropWhile_cons, hdot]
  unfold parseFloatOr0 parseFloatQ
  rw [hdrop]
  simp only [hhead, hhead2, if_false, or_self, hip, hrest, List.head?_cons,
    List.tail_cons, if_true, if_pos rfl]
  rw [takeWhile_all isDigitCh _ hfd]
  have hne : natDigs (n / 100) ≠ [] := natDigs_ne_nil _
  rw [if_neg (by simp [List.isEmpty_iff, hne])]
  simp only [Option.getD_some, digitsToNat_natDigs, hfv, hfl]
  have hsplit : (n : ℚ) = ((n / 100 : Nat) : ℚ) * 100 + ((n % 100 : Nat) : ℚ) := by
    exact_mod_cast (by omega : n = n / 100 * 100 + n % 100)
  rw [hsplit]
  ring

/-! ### Characterizing the transformer's result -/

theorem transformTransaction_eq (txn : Txn) :
    transformTransaction txn =
      (if shouldSkipTransaction txn then none
       else
        match govDate txn with
        | none => none
        | some rawDate =>
          match
            (match resolveInstallments txn with
             | some i =>
               if 1 < i.number then some (adjustInstallmentDate rawDate i.number)
               else (parseDate rawDate).map formatD
             | none => (parseDate rawDate).map formatD) with
          | none => none
          | some date =>
            some { date := date
                   payee := trimJs txn.description
                   memo := buildMemo txn (resolveInstallments txn)
                   outflow := if txn.chargedAmount.getD 0 < 0
                     then fixed2 (txn.chargedAmount.getD 0).natAbs else ""
                   inflow := if 0 < txn.chargedAmount.getD 0
                     then fixed2 (txn.chargedAmount.getD 0).natAbs else "" }) :=
  rfl

/-- The faithful `Except` transformer against its non-throwing value: the
result is `Except.ok` of `transformTransaction` or the `formatDate` throw,
and the throw happens exactly when a kept transaction resolves an
installment number above 1 whose day-shift on the parsed governing date
clips past the JS Date range. -/
theorem transformTransactionE_spec (txn : Txn) :
    (transformTransactionE txn = Except.ok (transformTransaction txn) ∨
      transformTransactionE txn = Except.error "Invalid date") ∧
    ((∃ e, transformTransactionE txn = Except.error e) ↔
      (shouldSkipTransaction txn = false ∧
        ∃ rd i d, govDate txn = some rd ∧ resolveInstallments txn = some i ∧
          1 < i.number ∧ parseDate rd = some d ∧
          setDateAdd d (i.number - 1).toNat = none)) := by
  unfold transformTransactionE
  rw [transformTransaction_eq]
  by_cases hskip : shouldSkipTransaction txn = true
  · rw [if_pos hskip, if_pos hskip]
    refine ⟨Or.inl rfl, ?_, ?_⟩
    · rintro ⟨e, he⟩
      exact Except.noConfusion he
    · rintro ⟨hsf, _⟩
      rw [hskip] at hsf
      cases hsf
  · have hskipf : shouldSkipTransaction txn = false := by
      cases hx : shouldSkipTransaction txn
      · rfl
      · exact absurd hx hskip
    rw [if_neg hskip, if_neg hskip]
    cases hgd : govDate txn with
    | none =>
      refine ⟨Or.inl rfl, ?_, ?_⟩
      · rintro ⟨e, he⟩
        exact Except.noConfusion he
      · rintro ⟨_, rd, i, d, hrd, _⟩
        exact Option.noConfusion hrd
    | some rd =>
      dsimp only
      have hmemo := buildMemoE_ok txn (resolveInstallments txn)
      cases hres : resolveInstallments txn with
      | none =>
        rw [hres] at hmemo
        dsimp only
        cases hpar : parseDate rd with
        | none =>
          refine ⟨Or.inl rfl, ?_, ?_⟩
          · rintro ⟨e, he⟩
            exact Except.noConfusion he
          · rintro ⟨_, rd', i', d', _, hres', _⟩
            exact Option.noConfusion hres'
        | some p =>
          rw [hmemo]
          refine ⟨Or.inl rfl, ?_, ?_⟩
          · rintro ⟨e, he⟩
            exact Except.noConfusion he
          · rintro ⟨_, rd', i', d', _, hres', _⟩
            exact Option.noConfusion hres'
      | some i =>
        rw [hres] at hmemo
        dsimp only
        by_cases hnum : 1 < i.number
        · rw [if_pos hnum, if_pos hnum]
          unfold adjustInstallmentDateE adjustInstallmentDate
          cases hpar : parseDate rd with
          | none =>
            dsimp only
            rw [hmemo]
            refine ⟨Or.inl rfl, ?_, ?_⟩
            · rintro ⟨e, he⟩
              exact Except.noConfusion he
            · rintro ⟨_, rd', i', d', hrd', hres', _, hpar', _⟩
              cases Option.some.inj hrd'
              rw [hpar] at hpar'
              exact Option.noConfusion hpar'
          | some d =>
            dsimp only
            rw [if_pos hnum, if_pos hnum]
            cases hclip : setDateAdd d (i.number - 1).toNat with
            | none =>
              refine ⟨Or.inr rfl, ?_, ?_⟩
              · intro _
                exact ⟨hskipf, rd, i, d, rfl, rfl, hnum, hpar, hclip⟩
              · intro _
                exact ⟨"Invalid date", rfl⟩
            | some d2 =>
              have hd2 : d2 = addDays d (i.number - 1).toNat := by
                have hne : setDateAdd d (i.number - 1).toNat ≠ none := by
                  rw [hclip]
                  exact fun h => Option.noConfusion h
                have hsome := setDateAdd_ne_none hne
                rw [hclip] at hsome
                exact Option.some.inj hsome
              rw [hmemo, hd2]
              refine ⟨Or.inl rfl, ?_, ?_⟩
              · rintro ⟨e, he⟩
                exact Except.noConfusion he
              · rintro ⟨_, rd', i', d', hrd', hres', _, hpar', hclip'⟩
                cases Option.some.inj hrd'
                cases Option.some.inj hres'
                rw [hpar] at hpar'
                cases Option.some.inj hpar'
                rw [hclip] at hclip'
                exact Option.noConfusion hclip'
        · rw [if_neg hnum, if_neg hnum]
          cases hpar : parseDate rd with
          | none =>
            refine ⟨Or.inl rfl, ?_, ?_⟩
            · rintro ⟨e, he⟩
              exact Except.noConfusion he
            · rintro ⟨_, rd', i', d', hrd', hres', hnum', _⟩
              cases Option.some.inj hres'
              exact absurd hnum' hnum
          | some p =>
            rw [hmemo]
            refine ⟨Or.inl rfl, ?_, ?_⟩
            · rintro ⟨e, he⟩
              exact Except.noConfusion he
            · rintro ⟨_, rd', i', d', hrd', hres', hnum', _⟩
              cases Option.some.inj hres'
              exact absurd hnum' hnum

theorem fixed2_ne_empty (n : Nat) : fixed2 n ≠ "" := by
  intro h
  have hd : (fixed2 n).data = [] := by rw [h]
  rw [show (fixed2 n).data
      = natDigs (n / 100) ++ ('.' :: (pad2 (n % 100)).data)
    by simp [fixed2, natRepr]] at hd
  rcases List.append_eq_nil.mp hd with ⟨_, h2⟩
  cases h2

theorem filterAndPartition_eq (txns : List Txn) :
    filterAndPartition txns
      = (txns.filter fun t => ! shouldSkipTransaction t,
         (txns.filter fun t => shouldSkipTransaction t).map
           fun t => ⟨t, skipReason t⟩) := by
  induction txns with
  | nil => rfl
  | cons t rest ih =>
    simp only [filterAndPartition, ih, List.filter_cons]
    by_cases h : shouldSkipTransaction t <;> simp [h]

/-! ### Concrete inputs used by counterexamples and witnesses -/

def exC2 : Txn :=
  { type := some "normal", date := none, processedDate := some "not-a-date",
    originalAmount := none, originalCurrency := none,
    chargedAmount := some (-10000), description := "payment 2 of 12",
    status := "completed", identifier := none, memo := none, category := none,
    installments := none, accountNumber := none, accountName := none }

def exC2row : YnabRow :=
  { date := "not-a-date", payee := "payment 2 of 12",
    memo := "\x7b\"installment\":\"2/12\"\x7d", outflow := "100.00",
    inflow := "" }

def exC3 : Txn :=
  { exC2 with
    description := "Test"
    processedDate := some "2024-03-15"
    date := some "2024-03-15"
    installments := some ⟨5, 3⟩ }

def exC3row : YnabRow :=
  { date := "2024-03-19", payee := "Test",
    memo := "\x7b\"chargeDate\":\"2024-03-15\",\"installment\":\"5/3\"\x7d",
    outflow := "100.00", inflow := "" }

def exC4 : Txn :=
  { exC2 with
    description := " Store "
    processedDate := some "2024-03-15"
    date := some "2024-03-15"
    chargedAmount := some (-15000) }

def exC4row : YnabRow :=
  { date := "2024-03-15", payee := "Store",
    memo := "\x7b\"chargeDate\":\"2024-03-15\"\x7d", outflow := "150.00",
    inflow := "" }

/-- The raw transaction of the regression test
"omits raw scraper results from formatted audit logs". -/
def exC1txn : Txn :=
  { type := some "normal", date := some "2024-03-15T00:00:00+02:00",
    processedDate := some "2024-03-15T00:00:00+02:00",
    originalAmount := some 2500, originalCurrency := some "ILS",
    chargedAmount := some (-2500), description := "Test Transaction",
    status := "completed", identifier := none, memo := none, category := none,
    installments := none, accountNumber := none, accountName := none }

def exC1row : YnabRow :=
  { date := "2024-03-15", payee := "Store", memo := "", outflow := "25.00",
    inflow := "" }

/-- The audit-log state of that regression test: raw scraper results and a
transformation sample both recorded. -/
def exC1result : RawResult :=
  { accountName := "Max", success := true, error := none,
    transactions := [exC1txn] }

def exC1log : AuditLog :=
  { createAuditLog "2024-03-15T10:00:00.000Z" with
    rawScraperResults := some [exC1result]
    transformationDetails := some [(exC1txn, exC1row)] }

/-! ### The claims -/

set_option maxRecDepth 4000 in
/-- C1 (code bug): at the regression test's own input — raw scraper results
recorded alongside a transformation sample — `formatAuditLog` renders the
"Raw Scraper Results:" dump of the unprocessed source payload next to the
"Transformation Details:" sample, though the spec, the regression test
(audit-logger.test.ts, "omits raw scraper results from formatted audit
logs") and the changelog all require the raw dump to be absent. -/
theorem C1_raw_dump_rendered :
    "Raw Scraper Results:".data <:+: (formatAuditLog exC1log).data ∧
    "Test Transaction".data <:+: (formatAuditLog exC1log).data ∧
    "Transformation Details:".data <:+: (formatAuditLog exC1log).data := by
  refine ⟨?_, ?_, ?_⟩ <;> decide

/-- C2 (amended): `transform` returns none exactly when the Classifier
would skip the transaction, or when no governing date is present (truthy),
or when the governing date does not parse AND no installment number above 1
was resolved; with a resolved installment number above 1 an unparseable
governing date is passed through verbatim instead of yielding none. -/
theorem C2_transform_none_iff (txn : Txn) :
    transformTransaction txn = none ↔
      shouldSkipTransaction txn = true ∨ govDate txn = none ∨
        (∃ rd, govDate txn = some rd ∧ parseDate rd = none ∧
          ∀ i, resolveInstallments txn = some i → ¬ 1 < i.number) := by
  rw [transformTransaction_eq]
  by_cases hskip : shouldSkipTransaction txn = true
  · rw [if_pos hskip]
    exact ⟨fun _ => Or.inl hskip, fun _ => rfl⟩
  · rw [if_neg hskip]
    cases hgd : govDate txn with
    | none =>
      exact ⟨fun _ => Or.inr (Or.inl rfl), fun _ => rfl⟩
    | some rd =>
      cases hres : resolveInstallments txn with
      | some i =>
        dsimp only
        by_cases hnum : 1 < i.number
        · rw [if_pos hnum]
          constructor
          · intro h; exact Option.noConfusion h
          · rintro (h | h | ⟨rd', hrd', hpar, hall⟩)
            · exact absurd h hskip
            · exact Option.noConfusion h
            · exact absurd hnum (hall i rfl)
        · rw [if_neg hnum]
          cases hpar : parseDate rd with
          | none =>
            constructor
            · intro _
              refine Or.inr (Or.inr ⟨rd, rfl, hpar, fun j hj => ?_⟩)
              cases Option.some.inj hj
              exact hnum
            · intro _; rfl
          | some p =>
            constructor
            · intro h; exact Option.noConfusion h
            · rintro (h | h | ⟨rd', hrd', hpar', hall⟩)
              · exact absurd h hskip
              · exact Option.noConfusion h
              · cases Option.some.inj hrd'
                rw [hpar] at hpar'
                exact Option.noConfusion hpar'
      | none =>
        dsimp only
        cases hpar : parseDate rd with
        | none =>
          constructor
          · intro _
            exact Or.inr (Or.inr ⟨rd, rfl, hpar, fun j hj => Option.noConfusion hj⟩)
          · intro _; rfl
        | some p =>
          constructor
          · intro h; exact Option.noConfusion h
          · rintro (h | h | ⟨rd', hrd', hpar', hall⟩)
            · exact absurd h hskip
            · exact Option.noConfusion h
            · cases Option.some.inj hrd'
              rw [hpar] at hpar'
              exact Option.noConfusion hpar'

/-- C2 (counterexample): a completed transaction with charged amount,
a present but unparseable processed date, and installment 2 of 12 resolved
from its description, is NOT mapped to none — the raw string "not-a-date"
becomes the row's date — though the claim requires none for an unparseable
governing date. -/
theorem C2_counterexample :
    shouldSkipTransaction exC2 = false ∧
    govDate exC2 = some "not-a-date" ∧
    parseDate "not-a-date" = none ∧
    transformTransaction exC2 = some exC2row := by
  refine ⟨?_, ?_, ?_, ?_⟩ <;> decide

/-- C3 (amended): every `InstallmentInfo` produced by the pattern matcher
satisfies number > 0, total > 0 and number ≤ total (an out-of-range or zero
textual match is treated as no match); the fallback that resolves a
pre-computed source record checks only truthiness, not the range, so that
path can violate the invariant (see the counterexample). -/
theorem C3_parseInstallments_range (text : String) (i : InstallmentInfo)
    (h : parseInstallments text = some i) :
    0 < i.number ∧ 0 < i.total ∧ i.number ≤ i.total := by
  have key : ∀ (r : Option (Nat × Nat)) (j : InstallmentInfo),
      checkRange r = some j → 0 < j.number ∧ 0 < j.total ∧ j.number ≤ j.total := by
    intro r j hj
    unfold checkRange at hj
    cases r with
    | none => cases hj
    | some p =>
      dsimp only at hj
      split at hj
      · rename_i hcond
        obtain ⟨h1, h2, h3⟩ := hcond
        cases hj
        refine ⟨?_, ?_, ?_⟩
        · show (0 : Int) < (p.1 : Int)
          exact_mod_cast h1
        · show (0 : Int) < (p.2 : Int)
          exact_mod_cast h2
        · show (p.1 : Int) ≤ (p.2 : Int)
          exact_mod_cast h3
      · cases hj
  unfold parseInstallments at h
  split at h
  · rename_i j hj
    cases h
    exact key _ _ hj
  · split at h
    · rename_i j hj
      cases h
      exact key _ _ hj
    · exact key _ _ h

/-- C3 (witness): the English pattern match "payment 2 of 12" satisfies the
range invariant. -/
theorem C3_witness :
    parseInstallments "payment 2 of 12" = some ⟨2, 12⟩ ∧
      (0 < (⟨2, 12⟩ : InstallmentInfo).number ∧
        0 < (⟨2, 12⟩ : InstallmentInfo).total ∧
        (⟨2, 12⟩ : InstallmentInfo).number ≤ (⟨2, 12⟩ : InstallmentInfo).total) :=
  ⟨by decide, C3_parseInstallments_range "payment 2 of 12" ⟨2, 12⟩ (by decide)⟩

/-- C3 (counterexample): a pre-computed source record `{number 5, total 3}`
with no textual match is resolved and used by the pipeline unvalidated —
number > total — shifting the row date by 4 days and writing "5/3" into the
memo. -/
theorem C3_counterexample :
    resolveInstallments exC3 = some ⟨5, 3⟩ ∧
    ¬ ((5 : Int) ≤ 3) ∧
    transformTransaction exC3 = some exC3row := by
  refine ⟨?_, ?_, ?_⟩ <;> decide

/-- C4: for every row produced from a kept transaction, exactly one of
outflow/inflow is non-empty — a negative charged amount fills outflow with
its absolute value formatted to two decimals and leaves inflow empty, a
positive amount symmetrically — and parsing the populated side back as a
decimal recovers the absolute value of the charged amount exactly. -/
theorem C4_outflow_inflow (txn : Txn) (row : YnabRow) (a : Int)
    (hrow : transformTransaction txn = some row)
    (ha : txn.chargedAmount = some a) :
    (row.outflow = "" ↔ ¬ row.inflow = "") ∧
    (a < 0 → row.outflow = fixed2 a.natAbs ∧ row.inflow = "" ∧
      parseFloatOr0 row.outflow = (a.natAbs : ℚ) / 100) ∧
    (0 < a → row.inflow = fixed2 a.natAbs ∧ row.outflow = "" ∧
      parseFloatOr0 row.inflow = (a.natAbs : ℚ) / 100) := by
  rw [transformTransaction_eq] at hrow
  by_cases hskip : shouldSkipTransaction txn = true
  · rw [if_pos hskip] at hrow
    exact Option.noConfusion hrow
  · rw [if_neg hskip] at hrow
    have hane : a ≠ 0 := by
      intro h0
      apply hskip
      unfold shouldSkipTransaction
      rw [ha, h0]
      by_cases hst : txn.status = "pending"
      · rw [if_pos hst]
      · rw [if_neg hst, if_pos (Or.inr rfl)]
    have hamt : txn.chargedAmount.getD 0 = a := by rw [ha]; rfl
    have hfields : row.outflow = (if a < 0 then fixed2 a.natAbs else "") ∧
        row.inflow = (if 0 < a then fixed2 a.natAbs else "") := by
      cases hgd : govDate txn with
      | none =>
        rw [hgd] at hrow
        exact Option.noConfusion hrow
      | some rd =>
        rw [hgd] at hrow
        dsimp only at hrow
        split at hrow
        · exact Option.noConfusion hrow
        · have hr := (Option.some.inj hrow).symm
          rw [hr, hamt]
          exact ⟨rfl, rfl⟩
    obtain ⟨ho, hi⟩ := hfields
    have htri : a < 0 ∨ 0 < a := by omega
    refine ⟨?_, ?_, ?_⟩
    · constructor
      · intro h0 hi0
        rcases htri with hneg | hpos
        · rw [ho, if_pos hneg] at h0
          exact fixed2_ne_empty _ h0
        · rw [hi, if_pos hpos] at hi0
          exact fixed2_ne_empty _ hi0
      · intro hie
        rcases htri with hneg | hpos
        · rw [hi, if_neg (by omega)] at hie
          exact absurd rfl hie
        · rw [ho, if_neg (by omega)]
    · intro hneg
      rw [ho, if_pos hneg, hi, if_neg (by omega)]
      exact ⟨rfl, rfl, parseFloatOr0_fixed2 _⟩
    · intro hpos
      rw [hi, if_pos hpos, ho, if_neg (by omega)]
      exact ⟨rfl, rfl, parseFloatOr0_fixed2 _⟩

/-- C4 (witness): the end-to-end scenario — completed, charged −150.00,
description " Store ", processed date 2024-03-15 — yields outflow "150.00"
and empty inflow, and the outflow parses back to 150. -/
theorem C4_witness :
    transformTransaction exC4 = some exC4row ∧
    exC4.chargedAmount = some (-15000) ∧
    ((exC4row.outflow = "" ↔ ¬ exC4row.inflow = "") ∧
     ((-15000 : Int) < 0 → exC4row.outflow = fixed2 (Int.natAbs (-15000)) ∧
       exC4row.inflow = "" ∧
       parseFloatOr0 exC4row.outflow = ((Int.natAbs (-15000) : ℚ)) / 100) ∧
     ((0 : Int) < -15000 → exC4row.inflow = fixed2 (Int.natAbs (-15000)) ∧
       exC4row.outflow = "" ∧
       parseFloatOr0 exC4row.inflow = ((Int.natAbs (-15000) : ℚ)) / 100)) :=
  ⟨by decide, by decide,
    C4_outflow_inflow exC4 exC4row (-15000) (by decide) (by decide)⟩

/-- C5 (amended): within the representable JS Date range installment
spreading is date-additive — spread(s, 1) returns the input string
unchanged for every parseable s; for k > 1 whose (k−1)-day shift stays in
range, spread(s, k) is the (k−1)-day shift of the parsed date, one
calendar day past the (k−2)-day shift, with month/year roll-over handled
by the calendar arithmetic (2024-03-30 with installment 5 gives
2024-04-03); an unparseable input string is returned unchanged; but when
the shift clips past the JS Date range the mutated date is Invalid and
spread throws a FormatError instead of returning. -/
theorem C5_spread_additive (s : String) (k : Int) :
    (∀ d, parseDate s = some d →
      adjustInstallmentDateE s 1 = Except.ok s ∧
      (1 < k → setDateAdd d (k - 1).toNat ≠ none →
        adjustInstallmentDateE s k
          = Except.ok (formatD (addDays d (k - 1).toNat)) ∧
        addDays d (k - 1).toNat = nextDay (addDays d (k - 2).toNat)) ∧
      (1 < k → setDateAdd d (k - 1).toNat = none →
        adjustInstallmentDateE s k = Except.error "Invalid date")) ∧
    (parseDate s = none → adjustInstallmentDateE s k = Except.ok s) ∧
    adjustInstallmentDateE "2024-03-30" 5 = Except.ok "2024-04-03" := by
  refine ⟨?_, ?_, rfl⟩
  · intro d hd
    refine ⟨?_, ?_, ?_⟩
    · unfold adjustInstallmentDateE
      rw [hd]
      dsimp only
      rw [if_neg (by decide : ¬ (1 : Int) < 1)]
      show Except.ok (formatD d) = Except.ok s
      rw [formatD_jsNewDate hd]
    · intro hk hin
      constructor
      · unfold adjustInstallmentDateE
        rw [hd]
        dsimp only
        rw [if_pos hk, setDateAdd_ne_none hin]
        rfl
      · rw [show (k - 1).toNat = (k - 2).toNat + 1 by omega]
        rfl
    · intro hk hclip
      exact adjustInstallmentDateE_error hd hk hclip
  · intro h
    unfold adjustInstallmentDateE
    rw [h]

/-- C5 (counterexample): the claimed spread value does not exist for every
k > 1 — with the parseable date 2024-03-15 and installment number
100,000,000 the shifted date clips past the JS Date range and the function
throws "Invalid date" instead of returning a string. -/
theorem C5_counterexample :
    parseDate "2024-03-15" = some ⟨2024, 3, 15⟩ ∧
    (1 : Int) < 100000000 ∧
    adjustInstallmentDateE "2024-03-15" 100000000
      = Except.error "Invalid date" := by
  refine ⟨by decide, by decide, rfl⟩

/-- C6: classification is deterministic in (status, charged amount), with
the pending check evaluated before the amount check — a pending transaction
is skipped as "Pending" whatever its amount, a non-pending one with absent
or zero charged amount as "Zero amount", every other transaction is kept —
and `filterAndPartition` is the order-preserving partition by that
decision. -/
theorem C6_classifier (txn t1 t2 : Txn) (txns : List Txn) :
    (txn.status = "pending" →
      shouldSkipTransaction txn = true ∧ skipReason txn = "Pending") ∧
    (txn.status ≠ "pending" →
      (txn.chargedAmount = none ∨ txn.chargedAmount = some 0) →
      shouldSkipTransaction txn = true ∧ skipReason txn = "Zero amount") ∧
    (txn.status ≠ "pending" → txn.chargedAmount ≠ none →
      txn.chargedAmount ≠ some 0 → shouldSkipTransaction txn = false) ∧
    (t1.status = t2.status → t1.chargedAmount = t2.chargedAmount →
      shouldSkipTransaction t1 = shouldSkipTransaction t2 ∧
        skipReason t1 = skipReason t2) ∧
    (filterAndPartition txns).1 = txns.filter (fun t => ! shouldSkipTransaction t) ∧
    (filterAndPartition txns).2
      = (txns.filter fun t => shouldSkipTransaction t).map
          fun t => ⟨t, skipReason t⟩ := by
  refine ⟨?_, ?_, ?_, ?_, ?_, ?_⟩
  · intro hp
    constructor
    · unfold shouldSkipTransaction
      rw [if_pos hp]
    · unfold skipReason
      rw [if_pos hp]
  · intro hnp hz
    constructor
    · unfold shouldSkipTransaction
      rw [if_neg hnp, if_pos hz]
    · unfold skipReason
      rw [if_neg hnp]
  · intro hnp hn h0
    unfold shouldSkipTransaction
    rw [if_neg hnp, if_neg (not_or.mpr ⟨hn, h0⟩)]
  · intro hs hca
    constructor
    · simp only [shouldSkipTransaction, hs, hca]
    · simp only [skipReason, hs]
  · rw [filterAndPartition_eq]
  · rw [filterAndPartition_eq]

/-- C7: the Aggregator's run-wide totals equal the sum of the per-source
values; moreover both equal the direct sum of per-transaction
contributions, and the count recorded under each source key (missing
source names attributing to the sentinel "unknown") is the number of
transactions attributed to it. -/
theorem C7_aggregation_consistency (txns : List Txn) :
    (calculateSummary txns).totalOutflow
        = ((calculateSummary txns).byAccount.map fun p => p.2.outflow).sum ∧
    (calculateSummary txns).totalInflow
        = ((calculateSummary txns).byAccount.map fun p => p.2.inflow).sum ∧
    (calculateSummary txns).totalOutflow = (txns.map txnOutflowQ).sum ∧
    (calculateSummary txns).totalInflow = (txns.map txnInflowQ).sum ∧
    ∀ k, countAt (calculateSummary txns).byAccount k
        = (txns.filter fun t => t.accountName.getD "unknown" = k).length := by
  refine ⟨rfl, rfl, ?_, ?_, ?_⟩
  · show alSum (fun w => w.outflow) (txns.foldl summStep []) = _
    rw [foldl_summStep_outflow]
    simp [alSum]
  · show alSum (fun w => w.inflow) (txns.foldl summStep []) = _
    rw [foldl_summStep_inflow]
    simp [alSum]
  · intro k
    show countAt (txns.foldl summStep []) k = _
    rw [foldl_summStep_count]
    simp [countAt, alGet]

/-- C8 (amended): `formatDate` fails exactly on inputs that do not resolve
to a valid calendar date (whether given as a string or as an already-parsed
value), and `buildMemo` never raises because every `formatDate` call it
makes happens after `parseDate` succeeded — but the error branch is NOT
unreachable through `transformTransaction`: `adjustInstallmentDate` calls
`formatDate` on the `setDate`-mutated date, so it raises exactly when a
parseable date is shifted past the JS Date range, and
`transformTransaction` raises exactly when a kept transaction resolves an
installment number above 1 whose shift of the parsed governing date clips
out of range. -/
theorem C8_formatDate_contract (s : String) (jd : Option CDate) (txn : Txn)
    (inst : Option InstallmentInfo) (n : Int) :
    ((∃ e, formatDateStr s = Except.error e) ↔ parseDate s = none) ∧
    ((∃ e, formatDateE jd = Except.error e) ↔ jd = none) ∧
    buildMemoE txn inst = Except.ok (buildMemo txn inst) ∧
    ((∃ e, adjustInstallmentDateE s n = Except.error e) ↔
      (∃ d, parseDate s = some d ∧ 1 < n ∧
        setDateAdd d (n - 1).toNat = none)) ∧
    (transformTransactionE txn = Except.ok (transformTransaction txn) ∨
      transformTransactionE txn = Except.error "Invalid date") ∧
    ((∃ e, transformTransactionE txn = Except.error e) ↔
      (shouldSkipTransaction txn = false ∧
        ∃ rd i d, govDate txn = some rd ∧ resolveInstallments txn = some i ∧
          1 < i.number ∧ parseDate rd = some d ∧
          setDateAdd d (i.number - 1).toNat = none)) := by
  refine ⟨?_, ?_, buildMemoE_ok txn inst, ?_,
    (transformTransactionE_spec txn).1, (transformTransactionE_spec txn).2⟩
  · unfold formatDateStr parseDate
    cases jsNewDate s <;> simp [formatDateE]
  · cases jd <;> simp [formatDateE]
  · unfold adjustInstallmentDateE
    cases hp : parseDate s with
    | none =>
      constructor
      · rintro ⟨e, he⟩
        exact Except.noConfusion he
      · rintro ⟨d, hd, _⟩
        exact Option.noConfusion hd
    | some d =>
      dsimp only
      by_cases hn : 1 < n
      · rw [if_pos hn]
        cases hclip : setDateAdd d (n - 1).toNat with
        | none =>
          constructor
          · intro _
            exact ⟨d, rfl, hn, hclip⟩
          · intro _
            exact ⟨"Invalid date", rfl⟩
        | some d2 =>
          constructor
          · rintro ⟨e, he⟩
            exact Except.noConfusion he
          · rintro ⟨d', hd', _, hclip'⟩
            cases Option.some.inj hd'
            rw [hclip] at hclip'
            exact Option.noConfusion hclip'
      · rw [if_neg hn]
        constructor
        · rintro ⟨e, he⟩
          exact Except.noConfusion he
        · rintro ⟨d', hd', hn', _⟩
          exact absurd hn' hn

/-- Keep-everything transaction whose pattern-matched installment count
overflows the JS Date range when spread from its processed date. -/
def exC8 : Txn :=
  { exC2 with
    description := "payment 100000000 of 100000000"
    processedDate := some "2024-03-15"
    date := some "2024-03-15" }

/-- C8 (counterexample): the FormatError branch is reachable through the
pipeline — the description "payment 100000000 of 100000000" passes the
pattern matcher and its range validation, the transaction is kept with a
parseable processed date, yet the 99,999,999-day shift clips past the JS
Date range and `transformTransaction` throws "Invalid date". -/
theorem C8_counterexample :
    parseInstallments "payment 100000000 of 100000000"
      = some ⟨100000000, 100000000⟩ ∧
    shouldSkipTransaction exC8 = false ∧
    parseDate "2024-03-15" = some ⟨2024, 3, 15⟩ ∧
    transformTransactionE exC8 = Except.error "Invalid date" := by
  refine ⟨by decide, by decide, by decide, rfl⟩

/-- Comparator realizing plain code-point string comparison (on the
character lists) in the localeCompare sign convention. -/
def lcCode (x y : String) : Int :=
  if x.data < y.data then -1 else if y.data < x.data then 1 else 0

/-- ASCII lower-casing of a character, used to model a case-insensitive
collation. -/
def lowerAsciiC (c : Char) : Char :=
  if 'A' ≤ c ∧ c ≤ 'Z' then Char.ofNat (c.toNat + 32) else c

/-- ASCII lower-casing of a string. -/
def lowerStr (s : String) : String :=
  ⟨s.data.map lowerAsciiC⟩

/-- Model of a locale collation that differs from code-point order: it
compares case-insensitively, as the default en-US collation does on the
pair "ZZZ" and "aaa" (where localeCompare orders "aaa" before "ZZZ" while
code points order "ZZZ" first). -/
def lcCI (x y : String) : Int :=
  lcCode (lowerStr x) (lowerStr y)

theorem lcCode_le (x y : String) : lcCode x y ≤ 0 ↔ x ≤ y := by
  unfold lcCode
  by_cases h1 : x.data < y.data
  · rw [if_pos h1]
    exact ⟨fun _ => le_of_lt (String.lt_iff_toList_lt.mpr h1), fun _ => by decide⟩
  · rw [if_neg h1]
    by_cases h2 : y.data < x.data
    · rw [if_pos h2]
      exact ⟨fun h => absurd h (by decide),
        fun h => absurd h (not_le.mpr (String.lt_iff_toList_lt.mpr h2))⟩
    · rw [if_neg h2]
      exact ⟨fun _ => not_lt.mp fun hc => h2 (String.lt_iff_toList_lt.mp hc),
        fun _ => le_refl 0⟩

theorem lcCI_total : ∀ x y, lcCI x y ≤ 0 ∨ lcCI y x ≤ 0 := by
  intro x y
  rcases le_total (lowerStr x) (lowerStr y) with h | h
  · exact Or.inl ((lcCode_le _ _).mpr h)
  · exact Or.inr ((lcCode_le _ _).mpr h)

theorem lcCI_trans : ∀ x y z, lcCI x y ≤ 0 → lcCI y z ≤ 0 → lcCI x z ≤ 0 := by
  intro x y z hxy hyz
  exact (lcCode_le _ _).mpr
    (le_trans ((lcCode_le _ _).mp hxy) ((lcCode_le _ _).mp hyz))

/-- Kept transaction whose raw (unparseable) processed date "aaa" reaches
the output row verbatim on the installment path. -/
def exC9txnA : Txn :=
  { exC2 with
    description := "payment 2 of 9"
    processedDate := some "aaa" }

/-- Kept transaction whose raw (unparseable) processed date "ZZZ" reaches
the output row verbatim on the installment path. -/
def exC9txnZ : Txn :=
  { exC2 with
    description := "payment 2 of 9"
    processedDate := some "ZZZ" }

/-- The output row of `exC9txnA`. -/
def exC9rowA : YnabRow :=
  { date := "aaa"
    payee := "payment 2 of 9"
    memo := "\x7b\"installment\":\"2/9\"\x7d"
    outflow := "100.00"
    inflow := "" }

/-- The output row of `exC9txnZ`. -/
def exC9rowZ : YnabRow :=
  { exC9rowA with date := "ZZZ" }

/-- C9 (amended): for every consistent collation comparator lc — total and
transitive on the nonpositive side of its sign convention, as ECMA-402
requires of localeCompare — the output of `transformTransactions` is
non-increasing by date string under lc; and whenever lc agrees with
code-point comparison on the date strings present in the output, as
default collations do on canonical YYYY-MM-DD dates, the output is
non-increasing lexicographically. The two orders genuinely diverge on raw
unparsed date strings that can reach the output (see the
counterexample). -/
theorem C9_sorted_descending (lc : String → String → Int)
    (htot : ∀ x y, lc x y ≤ 0 ∨ lc y x ≤ 0)
    (htrans : ∀ x y z, lc x y ≤ 0 → lc y z ≤ 0 → lc x z ≤ 0)
    (txns : List Txn) :
    List.Chain' (fun a b : YnabRow => lc b.date a.date ≤ 0)
      (transformTransactions lc txns) ∧
    ((∀ a b : YnabRow, a ∈ transformTransactions lc txns →
        b ∈ transformTransactions lc txns →
        lc b.date a.date ≤ 0 → b.date ≤ a.date) →
      List.Chain' (fun a b : YnabRow => b.date ≤ a.date)
        (transformTransactions lc txns)) := by
  have htransb : ∀ a b c : YnabRow,
      decide (lc b.date a.date ≤ 0) = true →
      decide (lc c.date b.date ≤ 0) = true →
      decide (lc c.date a.date ≤ 0) = true := by
    intro a b c hab hbc
    simp only [decide_eq_true_eq] at hab hbc ⊢
    exact htrans _ _ _ hbc hab
  have htotb : ∀ a b : YnabRow,
      (decide (lc b.date a.date ≤ 0) || decide (lc a.date b.date ≤ 0))
        = true := by
    intro a b
    simp only [Bool.or_eq_true, decide_eq_true_eq]
    exact htot b.date a.date
  have hp := List.sorted_mergeSort htransb htotb
    (txns.filterMap transformTransaction)
  have hpair : (transformTransactions lc txns).Pairwise
      (fun a b : YnabRow => lc b.date a.date ≤ 0) := by
    unfold transformTransactions
    refine List.Pairwise.imp ?_ hp
    intro a b hab
    simpa using hab
  refine ⟨hpair.chain', ?_⟩
  intro hagree
  apply List.Pairwise.chain'
  refine List.Pairwise.imp_of_mem ?_ hpair
  intro a b ha hb hab
  exact hagree a b ha hb hab

/-- C9 (witness): the collation-sorting conclusion instantiated at the
case-insensitive comparator and the two raw-date transactions. -/
theorem C9_witness :
    List.Chain' (fun a b : YnabRow => lcCI b.date a.date ≤ 0)
      (transformTransactions lcCI [exC9txnA, exC9txnZ]) ∧
    ((∀ a b : YnabRow, a ∈ transformTransactions lcCI [exC9txnA, exC9txnZ] →
        b ∈ transformTransactions lcCI [exC9txnA, exC9txnZ] →
        lcCI b.date a.date ≤ 0 → b.date ≤ a.date) →
      List.Chain' (fun a b : YnabRow => b.date ≤ a.date)
        (transformTransactions lcCI [exC9txnA, exC9txnZ])) :=
  C9_sorted_descending lcCI lcCI_total lcCI_trans [exC9txnA, exC9txnZ]

unseal List.merge List.mergeSort in
/-- C9 (counterexample): under the case-insensitive collation — the
behavior of the default en-US collation on these strings, which orders
"aaa" before "ZZZ" — the two raw-date rows sort as ZZZ, aaa: an adjacent
output pair that violates the claimed lexicographic non-increasing order,
since "ZZZ" < "aaa" by code points. -/
theorem C9_counterexample :
    transformTransactions lcCI [exC9txnA, exC9txnZ] = [exC9rowZ, exC9rowA] ∧
    ¬ (exC9rowA.date ≤ exC9rowZ.date) :=
  ⟨rfl, by rw [not_le]; exact String.lt_iff_toList_lt.mpr (by decide)⟩

/-- C10: calling `recordOutput` twice on the same recorder accumulates the
cumulative totals (they end equal to the sum of the parsed row amounts
across both calls, and the second call adds to the first call's totals),
while the output file, row count and checksum are overwritten with the
second call's values. -/
theorem C10_recordOutput_accumulates (hash : String → String)
    (ts p1 c1 p2 c2 : String) (rows1 rows2 : List YnabRow) :
    (recordOutput hash (recordOutput hash (createAuditLog ts) rows1 p1 c1)
        rows2 p2 c2).totalOutflow
      = (rows1.map fun r => parseFloatOr0 r.outflow).sum
        + (rows2.map fun r => parseFloatOr0 r.outflow).sum ∧
    (recordOutput hash (recordOutput hash (createAuditLog ts) rows1 p1 c1)
        rows2 p2 c2).totalInflow
      = (rows1.map fun r => parseFloatOr0 r.inflow).sum
        + (rows2.map fun r => parseFloatOr0 r.inflow).sum ∧
    (recordOutput hash (recordOutput hash (createAuditLog ts) rows1 p1 c1)
        rows2 p2 c2).totalOutflow
      = (recordOutput hash (createAuditLog ts) rows1 p1 c1).totalOutflow
        + (rows2.map fun r => parseFloatOr0 r.outflow).sum ∧
    (recordOutput hash (recordOutput hash (createAuditLog ts) rows1 p1 c1)
        rows2 p2 c2).outputFile = some p2 ∧
    (recordOutput hash (recordOutput hash (createAuditLog ts) rows1 p1 c1)
        rows2 p2 c2).outputTransactionCount = rows2.length ∧
    (recordOutput hash (recordOutput hash (createAuditLog ts) rows1 p1 c1)
        rows2 p2 c2).checksum = some (hash c2) := by
  refine ⟨?_, ?_, ?_, rfl, rfl, rfl⟩ <;>
    simp [recordOutput, createAuditLog]

end Iby
